import Mathlib

/-!
# Verification of the libliftoff plane-allocation core (`display.c`)

Shallow embedding of `src/display.c`.  The intrusive pointer-linked
structures of the C code are rendered index-based: a `Display` owns a list
of `Plane`s (registry order) and a list of `Output`s, and an arena of
`Layer`s; the mutable pairing pointers `plane->layer` / `layer->plane`
become `Option Nat` indices into those lists, and `layer->output` an index
into the output list.

The DRM atomic request (`drmModeAtomicReq`) is an append-only log:
a `List AtomicEntry`.  `drmModeAtomicGetCursor` is its length and
`drmModeAtomicSetCursor` truncates to a previously read cursor.
`drmModeAtomicAddProperty` appends one entry (its allocation-failure mode
is not modelled; it always succeeds here, and the C code's checks of its
return value are kept as dead branches for structural fidelity).
`drmModeAtomicCommit` with `DRM_MODE_ATOMIC_TEST_ONLY` is an uninterpreted
driver oracle `Driver : List AtomicEntry → Int` returning `0` on success
and a negated errno otherwise.

A C `assert` failure (a required property missing from a plane's table)
aborts the process; functions that can hit an assert return `Option`,
with `none` marking that abort.

For observability the match-phase functions additionally return a ghost
trace: the list of test-only commits issued, each recording the candidate
plane index, the layer index, the request contents tested, and the
driver's return code.  The trace is output-only and never read by the
modelled code.
-/

/-- One entry of a DRM atomic request: object id, property id, value
(`drmModeAtomicAddProperty` arguments). -/
structure AtomicEntry where
  obj : Nat
  prop : Nat
  value : Nat
deriving Repr, DecidableEq

/-- `struct hwc_plane_property`: an immutable (name, driver-assigned id) pair. -/
structure PlaneProp where
  name : String
  id : Nat
deriving Repr, DecidableEq

/-- `struct hwc_plane`: stable id, CRTC bitmask, discovered property table,
and the mutable pairing reference to at most one layer (an index into the
display's layer arena, `none` when unpaired). -/
structure Plane where
  id : Nat
  possible_crtcs : Nat
  props : List PlaneProp
  layer : Option Nat
deriving Repr, DecidableEq

instance : Inhabited Plane := ⟨⟨0, 0, [], none⟩⟩

/-- `struct hwc_layer_property`: a desired (name, value) pair of a layer. -/
structure LayerProp where
  name : String
  value : Nat
deriving Repr, DecidableEq

/-- `struct hwc_layer`: the desired property set, the back-reference to the
owning output (index into the display's output list), and the mutable
pairing reference to at most one plane (index into the plane list). -/
structure Layer where
  output : Nat
  props : List LayerProp
  plane : Option Nat
deriving Repr, DecidableEq

instance : Inhabited Layer := ⟨⟨0, [], none⟩⟩

/-- `struct hwc_output`: CRTC id and the ordered list of its layers
(indices into the display's layer arena). -/
structure Output where
  crtc_id : Nat
  layers : List Nat
deriving Repr, DecidableEq

instance : Inhabited Output := ⟨⟨0, []⟩⟩

/-- `struct hwc_display`: the owned planes in registry order, the outputs in
their defined order, and the arena holding every layer of every output. -/
structure Display where
  planes : List Plane
  outputs : List Output
  layers : List Layer
deriving Repr, DecidableEq

/-- The driver's verdict on a test-only atomic commit
(`drmModeAtomicCommit` with `DRM_MODE_ATOMIC_TEST_ONLY`): `0` is success,
otherwise a negated errno. -/
def Driver : Type := List AtomicEntry → Int

/-- `EINVAL` (invalid argument), one of the two structurally-infeasible
rejection codes. -/
def EINVAL : Int := 22

/-- `ERANGE` (out of range), the other structurally-infeasible rejection
code. -/
def ERANGE : Int := 34

/-- Ghost record of one test-only commit issued during the match phase:
candidate plane index, layer index, the request tested, driver return. -/
structure Trial where
  plane : Nat
  layer : Nat
  req : List AtomicEntry
  ret : Int
deriving Repr, DecidableEq

/-- Result of a match-phase function: the C `bool` return, the display and
request as left at return, and the ghost trace of test commits issued. -/
def MatchRes : Type := Bool × Display × List AtomicEntry × List Trial

/-- `plane_get_property`: linear scan of the plane's property table,
returning the first entry with the given name, or `NULL`. -/
def plane_get_property (plane : Plane) (name : String) : Option PlaneProp :=
  plane.props.find? (fun p => p.name = name)

/-- `plane_set_prop`: `drmModeAtomicAddProperty(req, plane->id, prop->id,
value)` — appends one entry to the request.  The C function can also fail
when the library cannot grow the request; that allocation failure is not
modelled. -/
def plane_set_prop (plane : Plane) (req : List AtomicEntry) (prop : PlaneProp)
    (value : Nat) : List AtomicEntry :=
  req ++ [⟨plane.id, prop.id, value⟩]

/-- The property-name loop of `plane_apply` (enable mode, lines 165-177):
for each desired layer property in order, resolve the name in the plane's
table; a missing name returns `false` (with the request as appended so
far), otherwise append the write and continue. -/
def plane_apply_props (plane : Plane) :
    List LayerProp → List AtomicEntry → Bool × List AtomicEntry
  | [], req => (true, req)
  | lp :: rest, req =>
    match plane_get_property plane lp.name with
    | none => (false, req)
    | some pp => plane_apply_props plane rest (plane_set_prop plane req pp lp.value)

/-- `plane_apply`: disable mode (`layer == NULL`) writes `FB_ID = 0`;
enable mode writes `CRTC_ID = layer->output->crtc_id` then the layer's
desired property set in order.  `none` models the `assert(plane_prop)`
abort when `FB_ID` / `CRTC_ID` is missing from the plane's table.  It
takes no driver argument: it only appends to the request and never issues
a commit. -/
def plane_apply (outputs : List Output) (plane : Plane) (layer : Option Layer)
    (req : List AtomicEntry) : Option (Bool × List AtomicEntry) :=
  match layer with
  | none =>
    match plane_get_property plane "FB_ID" with
    | none => none
    | some prop => some (true, plane_set_prop plane req prop 0)
  | some layer =>
    match plane_get_property plane "CRTC_ID" with
    | none => none
    | some prop =>
      let req := plane_set_prop plane req prop (outputs.getD layer.output default).crtc_id
      some (plane_apply_props plane layer.props req)

/-- Write plane `pi`'s pairing reference (`plane->layer = ...`). -/
def setPlaneLayer (d : Display) (pi : Nat) (v : Option Nat) : Display :=
  { d with planes := d.planes.set pi { d.planes.getD pi default with layer := v } }

/-- Write layer `li`'s pairing reference (`layer->plane = ...`). -/
def setLayerPlane (d : Display) (li : Nat) (v : Option Nat) : Display :=
  { d with layers := d.layers.set li { d.layers.getD li default with plane := v } }

/-- The two pointer writes of a successful match
(`layer->plane = plane; plane->layer = layer;`). -/
def pairPlaneLayer (d : Display) (pi li : Nat) : Display :=
  setPlaneLayer (setLayerPlane d li pi) pi li

/-- The candidate loop of `layer_choose_plane` (lines 192-217), recursing
over the remaining plane indices in registry order.  A paired plane is
skipped.  Otherwise the enable writes are appended; if `plane_apply`
returns `false` the whole pass is fatal (`return false`).  On success a
test-only commit is issued: `ret == 0` pairs the plane and layer and
returns; a code other than `EINVAL` / `ERANGE` is fatal; `EINVAL` /
`ERANGE` rolls the request back to `cursor` and tries the next plane. -/
def layer_try_planes (drv : Driver) (d : Display) (li : Nat) (layer : Layer)
    (cursor : Nat) :
    List Nat → List AtomicEntry → Option MatchRes
  | [], req => some (true, d, req, [])
  | pi :: rest, req =>
    match (d.planes.getD pi default).layer with
    | some _ => layer_try_planes drv d li layer cursor rest req
    | none =>
      match plane_apply d.outputs (d.planes.getD pi default) (some layer) req with
      | none => none
      | some (false, req') => some (false, d, req', [])
      | some (true, req') =>
        let ret := drv req'
        if ret = 0 then
          some (true, pairPlaneLayer d pi li, req', [⟨pi, li, req', ret⟩])
        else if -ret ≠ EINVAL ∧ -ret ≠ ERANGE then
          some (false, d, req', [⟨pi, li, req', ret⟩])
        else
          (layer_try_planes drv d li layer cursor rest (req'.take cursor)).map
            (fun r => (r.1, r.2.1, r.2.2.1, ⟨pi, li, req', ret⟩ :: r.2.2.2))

/-- `layer_choose_plane`: record the request cursor, then try every
currently-unpaired plane in registry order for this layer.  Exhausting
all planes without a success is not an error (`return true` at line 220). -/
def layer_choose_plane (drv : Driver) (d : Display) (li : Nat)
    (req : List AtomicEntry) : Option MatchRes :=
  let layer := d.layers.getD li default
  let cursor := req.length
  layer_try_planes drv d li layer cursor (List.range d.planes.length) req

/-- One step of the clear phase (`hwc_display_apply` lines 231-236): if
plane `pi` is paired, clear both sides of the pairing. -/
def clear_step (d : Display) (pi : Nat) : Display :=
  match (d.planes.getD pi default).layer with
  | none => d
  | some li => setPlaneLayer (setLayerPlane d li none) pi none

/-- The clear phase: unset all existing plane and layer mappings, walking
the plane list. -/
def clear_phase (d : Display) : Display :=
  (List.range d.planes.length).foldl clear_step d

/-- The disable-phase loop (`hwc_display_apply` lines 240-247): for every
plane (in registry order) still unpaired, append the disable write; a
`plane_apply` failure is fatal. -/
def disable_planes (d : Display) :
    List Nat → List AtomicEntry → Option (Bool × List AtomicEntry)
  | [], req => some (true, req)
  | pi :: rest, req =>
    match (d.planes.getD pi default).layer with
    | some _ => disable_planes d rest req
    | none =>
      match plane_apply d.outputs (d.planes.getD pi default) none req with
      | none => none
      | some (false, req') => some (false, req')
      | some (true, req') => disable_planes d rest req'

/-- The inner match-phase loop: the layers of one output in list order;
a `false` from `layer_choose_plane` aborts the pass immediately. -/
def match_layers (drv : Driver) :
    Display → List Nat → List AtomicEntry → Option MatchRes
  | d, [], req => some (true, d, req, [])
  | d, li :: rest, req =>
    match layer_choose_plane drv d li req with
    | none => none
    | some (false, d', req', tr) => some (false, d', req', tr)
    | some (true, d', req', tr) =>
      (match_layers drv d' rest req').map
        (fun r => (r.1, r.2.1, r.2.2.1, tr ++ r.2.2.2))

/-- The outer match-phase loop: outputs in their defined order. -/
def match_outputs (drv : Driver) :
    Display → List Output → List AtomicEntry → Option MatchRes
  | d, [], req => some (true, d, req, [])
  | d, o :: rest, req =>
    match match_layers drv d o.layers req with
    | none => none
    | some (false, d', req', tr) => some (false, d', req', tr)
    | some (true, d', req', tr) =>
      (match_outputs drv d' rest req').map
        (fun r => (r.1, r.2.1, r.2.2.1, tr ++ r.2.2.2))

/-- `hwc_display_apply`: clear all pairings, disable every (now unpaired)
plane, then match layers to planes output by output. -/
def hwc_display_apply (d : Display) (req : List AtomicEntry) (drv : Driver) :
    Option MatchRes :=
  let d1 := clear_phase d
  match disable_planes d1 (List.range d1.planes.length) req with
  | none => none
  | some (false, req') => some (false, d1, req', [])
  | some (true, req') => match_outputs drv d1 d1.outputs req'

instance : Inhabited PlaneProp := ⟨⟨"", 0⟩⟩

/-- The pairing reference of the plane at index `pi` (`plane->layer`);
out-of-range indices read the all-default plane, which is unpaired. -/
def planeLayerAt (d : Display) (pi : Nat) : Option Nat :=
  (d.planes.getD pi default).layer

/-- The pairing reference of the layer at index `li` (`layer->plane`). -/
def layerPlaneAt (d : Display) (li : Nat) : Option Nat :=
  (d.layers.getD li default).plane

/-- Plane `pi`'s pairing reference is empty or its layer points back at
`pi` (one direction of the mutual-consistency invariant). -/
def planeOkAt (d : Display) (pi : Nat) : Prop :=
  match planeLayerAt d pi with
  | none => True
  | some li => li < d.layers.length ∧ layerPlaneAt d li = some pi

/-- Layer `li`'s pairing reference is empty or its plane points back at
`li`. -/
def layerOkAt (d : Display) (li : Nat) : Prop :=
  match layerPlaneAt d li with
  | none => True
  | some pi => pi < d.planes.length ∧ planeLayerAt d pi = some li

/-- Mutual consistency of the pairing references: every plane's reference
is empty or mirrored, and every layer's reference is empty or mirrored.
Since each side is a single optional field, this also gives at-most-one
pairing per plane and per layer. -/
def Consistent (d : Display) : Prop :=
  (∀ pi, pi < d.planes.length → planeOkAt d pi) ∧
  (∀ li, li < d.layers.length → layerOkAt d li)

/-- No pairing on either side. -/
def AllUnpaired (d : Display) : Prop :=
  (∀ p ∈ d.planes, p.layer = none) ∧ (∀ l ∈ d.layers, l.plane = none)

/-- Structural well-formedness of the externally-populated output/layer
registry, mirroring what C pointers give for free: every layer reference
of an output is a valid index, and no layer node sits in two output lists
(or twice in one). -/
def WF (d : Display) : Prop :=
  (∀ o ∈ d.outputs, ∀ li ∈ o.layers, li < d.layers.length) ∧
  ((d.outputs.map Output.layers).flatten).Nodup

/-- Everything of a plane except its mutable pairing reference. -/
def planeShape (p : Plane) : Nat × Nat × List PlaneProp :=
  (p.id, p.possible_crtcs, p.props)

/-- Everything of a layer except its mutable pairing reference. -/
def layerShape (l : Layer) : Nat × List LayerProp :=
  (l.output, l.props)

/-- Everything of a display except the pairing references: the allocation
pass mutates nothing else. -/
def displayShape (d : Display) :
    List (Nat × Nat × List PlaneProp) × List Output × List (Nat × List LayerProp) :=
  (d.planes.map planeShape, d.outputs, d.layers.map layerShape)

/-- The single disable write of `plane_apply` in disable mode: value `0`
to the plane's `FB_ID` property. -/
def disableEntry (p : Plane) : AtomicEntry :=
  ⟨p.id, ((plane_get_property p "FB_ID").getD default).id, 0⟩

/-- The writes `plane_apply` appends in enable mode when every name
resolves: the `CRTC_ID` write carrying the owning output's CRTC id, then
one write per desired layer property, in list order. -/
def enable_writes (outputs : List Output) (plane : Plane) (layer : Layer) :
    List AtomicEntry :=
  ⟨plane.id, ((plane_get_property plane "CRTC_ID").getD default).id,
      (outputs.getD layer.output default).crtc_id⟩ ::
    layer.props.map (fun lp =>
      ⟨plane.id, ((plane_get_property plane lp.name).getD default).id, lp.value⟩)

instance (d : Display) (pi : Nat) : Decidable (planeOkAt d pi) := by
  unfold planeOkAt
  cases planeLayerAt d pi with
  | none => exact isTrue trivial
  | some li => exact inferInstanceAs (Decidable (_ ∧ _))

instance (d : Display) (li : Nat) : Decidable (layerOkAt d li) := by
  unfold layerOkAt
  cases layerPlaneAt d li with
  | none => exact isTrue trivial
  | some pi => exact inferInstanceAs (Decidable (_ ∧ _))

/-!
## Construction and teardown (`hwc_display_create` / `hwc_display_destroy`)

The intrusive list utility (`hwc_list_init`, `hwc_list_insert`,
`hwc_list_remove`, `hwc_list_for_each_safe`) is declared in `private.h`,
which is not part of the sources here; its relevant semantics are
modelled from the spec.  Driver queries and `dup` are oracles.  `calloc`
failure paths (which return `NULL` before any cleanup runs) are not
modelled. -/

/-- Modelled from the spec: the state of an intrusive doubly-linked list
head, from the missing `hwc_list` utility of `private.h` ("generic
intrusive doubly-linked list utility ... O(1) insert/remove/iterate",
spec section 1).  `struct hwc_display` is allocated with `calloc`, so until
`hwc_list_init` runs the head's `next`/`prev` pointers are `NULL` — not a
valid state of a circular intrusive list.  `uninit` is that zeroed state;
iterating it dereferences a null pointer. -/
inductive ListMem (α : Type) : Type where
  | uninit : ListMem α
  | elems : List α → ListMem α
deriving Repr, DecidableEq

/-- The raw memory state of `struct hwc_display` while it is being
constructed or torn down: the duplicated device handle and the two
intrusive list heads. -/
structure RawDisplay where
  drm_fd : Int
  planes : ListMem Plane
  outputs : ListMem Unit
deriving Repr, DecidableEq

/-- `hwc_display_destroy`: close the handle, then destroy every plane by
iterating `display->planes` with `hwc_list_for_each_safe`, then free the
display.  Iterating a list head that was never initialised (the
calloc-zeroed state) dereferences a null pointer; that undefined
behaviour is `none`. -/
def hwc_display_destroy (d : RawDisplay) : Option Unit :=
  match d.planes with
  | .uninit => none
  | .elems _ => some ()

/-- `plane_create`: query the plane (id, CRTC bitmask) and its property
table through the driver oracles, then insert the new plane at the tail
of the display's plane list.  `none` is any driver-query failure
(`drmModeGetPlane` / property enumeration); allocation failures are not
modelled. -/
def plane_create (getPlane : Nat → Option (Nat × Nat))
    (getProps : Nat → Option (List PlaneProp)) (planes : List Plane)
    (id : Nat) : Option (List Plane) :=
  match getPlane id with
  | none => none
  | some (pid, crtcs) =>
    match getProps id with
    | none => none
    | some ps => some (planes ++ [⟨pid, crtcs, ps, none⟩])

/-- The plane-discovery loop of `hwc_display_create` (lines 96-101); on
failure the planes created so far are reported for the unwind path. -/
def create_planes (getPlane : Nat → Option (Nat × Nat))
    (getProps : Nat → Option (List PlaneProp)) :
    List Nat → List Plane → Except (List Plane) (List Plane)
  | [], planes => .ok planes
  | id :: rest, planes =>
    match plane_create getPlane getProps planes id with
    | none => .error planes
    | some planes' => create_planes getPlane getProps rest planes'

/-- Outcome of `hwc_display_create`: a constructed display, a clean
`NULL` return, or undefined behaviour hit on the failure-unwind path. -/
inductive CreateResult : Type where
  | ok : RawDisplay → CreateResult
  | failed : CreateResult
  | ub : CreateResult
deriving Repr, DecidableEq

/-- `hwc_display_create`, driven by oracles for `dup`,
`drmModeGetPlaneResources`, `drmModeGetPlane` and property enumeration.
The display is calloc-zeroed, so both list heads start uninitialised;
`dup` failure unwinds through `hwc_display_destroy` *before*
`hwc_list_init` has run (lines 80-84 precede lines 86-87); later failures
unwind after both heads are initialised. -/
def hwc_display_create (dupRes : Int) (planeRes : Option (List Nat))
    (getPlane : Nat → Option (Nat × Nat))
    (getProps : Nat → Option (List PlaneProp)) : CreateResult :=
  let display : RawDisplay := ⟨dupRes, .uninit, .uninit⟩
  if dupRes < 0 then
    match hwc_display_destroy display with
    | none => .ub
    | some _ => .failed
  else
    let display : RawDisplay := ⟨dupRes, .elems [], .elems []⟩
    match planeRes with
    | none =>
      match hwc_display_destroy display with
      | none => .ub
      | some _ => .failed
    | some ids =>
      match create_planes getPlane getProps ids [] with
      | .error partialPlanes =>
        match hwc_display_destroy { display with planes := .elems partialPlanes } with
        | none => .ub
        | some _ => .failed
      | .ok allPlanes => .ok { display with planes := .elems allPlanes }

instance (d : Display) : Decidable (Consistent d) := by
  unfold Consistent
  have i1 : Decidable (∀ pi, pi < d.planes.length → planeOkAt d pi) :=
    Nat.decidableBallLT d.planes.length (fun pi _ => planeOkAt d pi)
  have i2 : Decidable (∀ li, li < d.layers.length → layerOkAt d li) :=
    Nat.decidableBallLT d.layers.length (fun li _ => layerOkAt d li)
  exact @instDecidableAnd _ _ i1 i2

instance (d : Display) : Decidable (WF d) := by
  unfold WF
  exact instDecidableAnd

instance (d : Display) : Decidable (AllUnpaired d) := by
  unfold AllUnpaired
  exact instDecidableAnd

/-! ## Concrete example devices, used to instantiate the theorems -/

/-- Example plane with id 10: `FB_ID` and `CRTC_ID` in its table. -/
def exPlane0 : Plane := ⟨10, 1, [⟨"FB_ID", 1⟩, ⟨"CRTC_ID", 2⟩], none⟩

/-- Example plane with id 11, same property table. -/
def exPlane1 : Plane := ⟨11, 1, [⟨"FB_ID", 1⟩, ⟨"CRTC_ID", 2⟩], none⟩

/-- First example layer: wants `FB_ID = 100`. -/
def exLayerA : Layer := ⟨0, [⟨"FB_ID", 100⟩], none⟩

/-- Second example layer: wants `FB_ID = 101`. -/
def exLayerB : Layer := ⟨0, [⟨"FB_ID", 101⟩], none⟩

/-- Example display: two planes, one output (CRTC 5) listing both layers. -/
def exDisplay : Display :=
  ⟨[exPlane0, exPlane1], [⟨5, [0, 1]⟩], [exLayerA, exLayerB]⟩

/-- A layer asking for a property name `foo` that no plane's table has. -/
def exLayerFoo : Layer := ⟨0, [⟨"foo", 7⟩], none⟩

/-- Display whose only layer requires the unknown property name `foo`. -/
def exDisplayFoo : Display := ⟨[exPlane0], [⟨5, [0]⟩], [exLayerFoo]⟩

/-- Driver oracle accepting every test commit. -/
def drvAccept : Driver := fun _ => 0

/-- Driver oracle rejecting every test commit with `EINVAL`. -/
def drvReject : Driver := fun _ => -EINVAL

/-- Driver oracle failing every test commit with `EIO` (5), a code that is
neither `EINVAL` nor `ERANGE`. -/
def drvFatal : Driver := fun _ => -5

/-- Driver oracle accepting exactly the commits whose last appended entry
targets object id 11 — i.e. whose newest enable group is for the plane
with id 11. -/
def drvLastObj11 : Driver := fun r =>
  match r.getLast? with
  | some e => if e.obj = 11 then 0 else -EINVAL
  | none => -EINVAL

/-- The request contents after a full pass on `exDisplay` with the
accept-all driver: both disable writes, then both enable groups. -/
def exReqAccept : List AtomicEntry :=
  [⟨10, 1, 0⟩, ⟨11, 1, 0⟩, ⟨10, 2, 5⟩, ⟨10, 1, 100⟩, ⟨11, 2, 5⟩, ⟨11, 1, 101⟩]

/-- `exDisplay` with layer 0 paired to plane 0 and layer 1 to plane 1
(the accept-all outcome). -/
def exDisplayPairedAB : Display :=
  ⟨[⟨10, 1, [⟨"FB_ID", 1⟩, ⟨"CRTC_ID", 2⟩], some 0⟩,
    ⟨11, 1, [⟨"FB_ID", 1⟩, ⟨"CRTC_ID", 2⟩], some 1⟩],
   [⟨5, [0, 1]⟩],
   [⟨0, [⟨"FB_ID", 100⟩], some 0⟩, ⟨0, [⟨"FB_ID", 101⟩], some 1⟩]⟩

/-- The trace of the accept-all pass on `exDisplay`. -/
def exTraceAccept : List Trial :=
  [⟨0, 0, [⟨10, 1, 0⟩, ⟨11, 1, 0⟩, ⟨10, 2, 5⟩, ⟨10, 1, 100⟩], 0⟩,
   ⟨1, 1, exReqAccept, 0⟩]

/-- The request contents at the moment the fatal-driver pass on
`exDisplay` aborts: both disable writes plus the first enable group. -/
def exReqFatal : List AtomicEntry :=
  [⟨10, 1, 0⟩, ⟨11, 1, 0⟩, ⟨10, 2, 5⟩, ⟨10, 1, 100⟩]

/-- The single trial of the fatal-driver pass on `exDisplay`. -/
def exTraceFatal : List Trial := [⟨0, 0, exReqFatal, -5⟩]

/-- `exDisplay` with layer 0 paired to plane 1 (the `drvLastObj11`
outcome: only the plane with id 11 passes the test). -/
def exDisplayPairedB : Display :=
  ⟨[⟨10, 1, [⟨"FB_ID", 1⟩, ⟨"CRTC_ID", 2⟩], none⟩,
    ⟨11, 1, [⟨"FB_ID", 1⟩, ⟨"CRTC_ID", 2⟩], some 0⟩],
   [⟨5, [0, 1]⟩],
   [⟨0, [⟨"FB_ID", 100⟩], some 1⟩, ⟨0, [⟨"FB_ID", 101⟩], none⟩]⟩

/-! ## Basic lemmas: indexed reads and writes -/

theorem getD_set_self {α} [Inhabited α] (l : List α) (i : Nat) (a : α)
    (h : i < l.length) : (l.set i a).getD i default = a := by
  rw [List.getD_eq_getElem?_getD, List.getElem?_set_self h, Option.getD_some]

theorem getD_set_ne {α} [Inhabited α] (l : List α) {i j : Nat} (a : α)
    (h : i ≠ j) : (l.set i a).getD j default = l.getD j default := by
  rw [List.getD_eq_getElem?_getD, List.getElem?_set_ne h, ← List.getD_eq_getElem?_getD]

theorem set_getD_self {α} [Inhabited α] (l : List α) (i : Nat) :
    l.set i (l.getD i default) = l := by
  apply List.ext_getElem (by simp)
  intro n h1 h2
  rw [List.getElem_set]
  split
  · next heq => subst heq; rw [List.getD_eq_getElem _ _ h2]
  · rfl

theorem map_set_eq {α β} (f : α → β) (l : List α) (i : Nat) (x : α)
    (hfx : ∀ h : i < l.length, f x = f l[i]) : (l.set i x).map f = l.map f := by
  induction l generalizing i with
  | nil => rfl
  | cons a t ih =>
    cases i with
    | zero =>
      have hx := hfx (by simp)
      simp only [List.set, List.map]
      rw [hx]
      rfl
    | succ n =>
      simp only [List.set, List.map]
      rw [ih n (fun h => by simpa using hfx (by simpa using Nat.succ_lt_succ h))]

theorem planeLayerAt_out_of_range (d : Display) {pi : Nat}
    (h : d.planes.length ≤ pi) : planeLayerAt d pi = none := by
  unfold planeLayerAt
  rw [List.getD_eq_default _ _ h]
  rfl

theorem layerPlaneAt_out_of_range (d : Display) {li : Nat}
    (h : d.layers.length ≤ li) : layerPlaneAt d li = none := by
  unfold layerPlaneAt
  rw [List.getD_eq_default _ _ h]
  rfl

theorem lt_of_planeLayerAt_some {d : Display} {pi li : Nat}
    (h : planeLayerAt d pi = some li) : pi < d.planes.length := by
  by_contra hc
  rw [planeLayerAt_out_of_range d (Nat.le_of_not_lt hc)] at h
  exact Option.noConfusion h

theorem lt_of_layerPlaneAt_some {d : Display} {li pi : Nat}
    (h : layerPlaneAt d li = some pi) : li < d.layers.length := by
  by_contra hc
  rw [layerPlaneAt_out_of_range d (Nat.le_of_not_lt hc)] at h
  exact Option.noConfusion h

theorem planeLayerAt_setPlaneLayer_self (d : Display) (pi : Nat) (v : Option Nat)
    (h : pi < d.planes.length) : planeLayerAt (setPlaneLayer d pi v) pi = v := by
  unfold planeLayerAt setPlaneLayer
  rw [getD_set_self _ _ _ h]

theorem planeLayerAt_setPlaneLayer_ne (d : Display) {pi pj : Nat} (v : Option Nat)
    (h : pi ≠ pj) : planeLayerAt (setPlaneLayer d pi v) pj = planeLayerAt d pj := by
  unfold planeLayerAt setPlaneLayer
  rw [getD_set_ne _ _ h]

theorem planeLayerAt_setLayerPlane (d : Display) (li : Nat) (v : Option Nat)
    (pi : Nat) : planeLayerAt (setLayerPlane d li v) pi = planeLayerAt d pi := rfl

theorem layerPlaneAt_setPlaneLayer (d : Display) (pi : Nat) (v : Option Nat)
    (li : Nat) : layerPlaneAt (setPlaneLayer d pi v) li = layerPlaneAt d li := rfl

theorem layerPlaneAt_setLayerPlane_self (d : Display) (li : Nat) (v : Option Nat)
    (h : li < d.layers.length) : layerPlaneAt (setLayerPlane d li v) li = v := by
  unfold layerPlaneAt setLayerPlane
  rw [getD_set_self _ _ _ h]

theorem layerPlaneAt_setLayerPlane_ne (d : Display) {li lj : Nat} (v : Option Nat)
    (h : li ≠ lj) : layerPlaneAt (setLayerPlane d li v) lj = layerPlaneAt d lj := by
  unfold layerPlaneAt setLayerPlane
  rw [getD_set_ne _ _ h]

theorem setPlaneLayer_planes_length (d : Display) (pi : Nat) (v : Option Nat) :
    (setPlaneLayer d pi v).planes.length = d.planes.length := by
  unfold setPlaneLayer
  exact List.length_set ..

theorem setLayerPlane_layers_length (d : Display) (li : Nat) (v : Option Nat) :
    (setLayerPlane d li v).layers.length = d.layers.length := by
  unfold setLayerPlane
  exact List.length_set ..

theorem displayShape_setPlaneLayer (d : Display) (pi : Nat) (v : Option Nat) :
    displayShape (setPlaneLayer d pi v) = displayShape d := by
  unfold displayShape setPlaneLayer
  rw [map_set_eq planeShape d.planes pi _
    (fun h => by rw [List.getD_eq_getElem _ _ h]; rfl)]

theorem displayShape_setLayerPlane (d : Display) (li : Nat) (v : Option Nat) :
    displayShape (setLayerPlane d li v) = displayShape d := by
  unfold displayShape setLayerPlane
  rw [map_set_eq layerShape d.layers li _
    (fun h => by rw [List.getD_eq_getElem _ _ h]; rfl)]

theorem displayShape_pair (d : Display) (pi li : Nat) :
    displayShape (pairPlaneLayer d pi li) = displayShape d := by
  unfold pairPlaneLayer
  rw [displayShape_setPlaneLayer, displayShape_setLayerPlane]

theorem shape_planes_length {d1 d2 : Display}
    (h : displayShape d1 = displayShape d2) :
    d1.planes.length = d2.planes.length := by
  have := congrArg (fun z => z.1.length) h
  simpa [displayShape] using this

theorem shape_layers_length {d1 d2 : Display}
    (h : displayShape d1 = displayShape d2) :
    d1.layers.length = d2.layers.length := by
  have := congrArg (fun z => z.2.2.length) h
  simpa [displayShape] using this

theorem shape_outputs {d1 d2 : Display}
    (h : displayShape d1 = displayShape d2) : d1.outputs = d2.outputs := by
  have := congrArg (fun z => z.2.1) h
  simpa [displayShape] using this

/-! ## Consistency helpers -/

theorem planeOkAt_elim {d : Display} {pi li : Nat} (h : planeOkAt d pi)
    (hEq : planeLayerAt d pi = some li) :
    li < d.layers.length ∧ layerPlaneAt d li = some pi := by
  unfold planeOkAt at h
  rw [hEq] at h
  exact h

theorem layerOkAt_elim {d : Display} {li pi : Nat} (h : layerOkAt d li)
    (hEq : layerPlaneAt d li = some pi) :
    pi < d.planes.length ∧ planeLayerAt d pi = some li := by
  unfold layerOkAt at h
  rw [hEq] at h
  exact h

theorem planeOkAt_intro {d : Display} {pi : Nat}
    (h : ∀ li, planeLayerAt d pi = some li →
      li < d.layers.length ∧ layerPlaneAt d li = some pi) : planeOkAt d pi := by
  unfold planeOkAt
  cases hEq : planeLayerAt d pi with
  | none => trivial
  | some li => exact h li hEq

theorem layerOkAt_intro {d : Display} {li : Nat}
    (h : ∀ pi, layerPlaneAt d li = some pi →
      pi < d.planes.length ∧ planeLayerAt d pi = some li) : layerOkAt d li := by
  unfold layerOkAt
  cases hEq : layerPlaneAt d li with
  | none => trivial
  | some pi => exact h pi hEq

/-- A consistent display with every plane unpaired has every layer
unpaired as well. -/
theorem layers_unpaired_of_planes_unpaired {d : Display} (hC : Consistent d)
    (hP : ∀ pi, planeLayerAt d pi = none) (li : Nat) :
    layerPlaneAt d li = none := by
  cases hEq : layerPlaneAt d li with
  | none => rfl
  | some pi =>
    have hlt := lt_of_layerPlaneAt_some hEq
    have h2 := (layerOkAt_elim (hC.2 li hlt) hEq).2
    rw [hP pi] at h2
    exact Option.noConfusion h2

/-- Membership form of plane-side unpairedness. -/
theorem planes_unpaired_mem {d : Display} (hP : ∀ pi, planeLayerAt d pi = none) :
    ∀ p ∈ d.planes, p.layer = none := by
  intro p hp
  rcases List.getElem_of_mem hp with ⟨k, hk, rfl⟩
  have := hP k
  unfold planeLayerAt at this
  rwa [List.getD_eq_getElem _ _ hk] at this

/-- Membership form of layer-side unpairedness. -/
theorem layers_unpaired_mem {d : Display} (hL : ∀ li, layerPlaneAt d li = none) :
    ∀ l ∈ d.layers, l.plane = none := by
  intro l hl
  rcases List.getElem_of_mem hl with ⟨k, hk, rfl⟩
  have := hL k
  unfold layerPlaneAt at this
  rwa [List.getD_eq_getElem _ _ hk] at this

/-- Indexed form of plane-side unpairedness. -/
theorem planes_unpaired_at {d : Display} (h : ∀ p ∈ d.planes, p.layer = none) :
    ∀ pi, planeLayerAt d pi = none := by
  intro pi
  rcases Nat.lt_or_ge pi d.planes.length with hlt | hge
  · unfold planeLayerAt
    rw [List.getD_eq_getElem _ _ hlt]
    exact h _ (List.getElem_mem hlt)
  · exact planeLayerAt_out_of_range d hge

/-- Indexed form of layer-side unpairedness. -/
theorem layers_unpaired_at {d : Display} (h : ∀ l ∈ d.layers, l.plane = none) :
    ∀ li, layerPlaneAt d li = none := by
  intro li
  rcases Nat.lt_or_ge li d.layers.length with hlt | hge
  · unfold layerPlaneAt
    rw [List.getD_eq_getElem _ _ hlt]
    exact h _ (List.getElem_mem hlt)
  · exact layerPlaneAt_out_of_range d hge

/-! ## The clear phase -/

theorem clear_step_eq_of_none {d : Display} {pi : Nat}
    (h : planeLayerAt d pi = none) : clear_step d pi = d := by
  unfold clear_step
  unfold planeLayerAt at h
  rw [h]

theorem clear_step_eq_of_some {d : Display} {pi li : Nat}
    (h : planeLayerAt d pi = some li) :
    clear_step d pi = setPlaneLayer (setLayerPlane d li none) pi none := by
  unfold clear_step
  unfold planeLayerAt at h
  rw [h]

theorem displayShape_clear_step (d : Display) (pi : Nat) :
    displayShape (clear_step d pi) = displayShape d := by
  cases h : planeLayerAt d pi with
  | none => rw [clear_step_eq_of_none h]
  | some li =>
    rw [clear_step_eq_of_some h, displayShape_setPlaneLayer,
      displayShape_setLayerPlane]

theorem planeLayerAt_clear_step_self (d : Display) (pi : Nat) :
    planeLayerAt (clear_step d pi) pi = none := by
  cases h : planeLayerAt d pi with
  | none => rw [clear_step_eq_of_none h]; exact h
  | some li =>
    rw [clear_step_eq_of_some h]
    have hlt : pi < d.planes.length := lt_of_planeLayerAt_some h
    rw [planeLayerAt_setPlaneLayer_self]
    exact hlt

theorem planeLayerAt_clear_step_none (d : Display) {pj : Nat} (pi : Nat)
    (h : planeLayerAt d pj = none) :
    planeLayerAt (clear_step d pi) pj = none := by
  by_cases hpp : pi = pj
  · subst hpp; exact planeLayerAt_clear_step_self d pi
  · cases hEq : planeLayerAt d pi with
    | none => rw [clear_step_eq_of_none hEq]; exact h
    | some li =>
      rw [clear_step_eq_of_some hEq, planeLayerAt_setPlaneLayer_ne _ _ hpp,
        planeLayerAt_setLayerPlane]
      exact h

theorem clear_step_consistent {d : Display} (hC : Consistent d) (pi : Nat) :
    Consistent (clear_step d pi) := by
  cases hEq : planeLayerAt d pi with
  | none => rw [clear_step_eq_of_none hEq]; exact hC
  | some li =>
    have hpi : pi < d.planes.length := lt_of_planeLayerAt_some hEq
    obtain ⟨hli, hback⟩ := planeOkAt_elim (hC.1 pi hpi) hEq
    rw [clear_step_eq_of_some hEq]
    have hPself : planeLayerAt (setPlaneLayer (setLayerPlane d li none) pi none) pi = none := by
      rw [planeLayerAt_setPlaneLayer_self]
      exact hpi
    have hPne : ∀ pj, pj ≠ pi →
        planeLayerAt (setPlaneLayer (setLayerPlane d li none) pi none) pj = planeLayerAt d pj := by
      intro pj hne
      rw [planeLayerAt_setPlaneLayer_ne _ _ (fun hx => hne hx.symm),
        planeLayerAt_setLayerPlane]
    have hLself : layerPlaneAt (setPlaneLayer (setLayerPlane d li none) pi none) li = none := by
      have : layerPlaneAt (setPlaneLayer (setLayerPlane d li none) pi none) li
          = layerPlaneAt (setLayerPlane d li none) li := rfl
      rw [this, layerPlaneAt_setLayerPlane_self _ _ _ hli]
    have hLne : ∀ lj, lj ≠ li →
        layerPlaneAt (setPlaneLayer (setLayerPlane d li none) pi none) lj = layerPlaneAt d lj := by
      intro lj hne
      have : layerPlaneAt (setPlaneLayer (setLayerPlane d li none) pi none) lj
          = layerPlaneAt (setLayerPlane d li none) lj := rfl
      rw [this, layerPlaneAt_setLayerPlane_ne _ _ (fun hx => hne hx.symm)]
    have hplen : (setPlaneLayer (setLayerPlane d li none) pi none).planes.length
        = d.planes.length := setPlaneLayer_planes_length ..
    have hllen : (setPlaneLayer (setLayerPlane d li none) pi none).layers.length
        = d.layers.length := setLayerPlane_layers_length ..
    constructor
    · intro pj hpj
      apply planeOkAt_intro
      intro lj hEq'
      by_cases hpp : pj = pi
      · subst hpp; rw [hPself] at hEq'; exact Option.noConfusion hEq'
      · rw [hPne pj hpp] at hEq'
        obtain ⟨hlj, hbackj⟩ := planeOkAt_elim (hC.1 pj (hplen ▸ hpj)) hEq'
        have hlne : lj ≠ li := by
          intro hx
          subst hx
          rw [hbackj] at hback
          exact hpp (Option.some.inj hback)
        exact ⟨hllen ▸ hlj, by rw [hLne lj hlne]; exact hbackj⟩
    · intro lj hlj
      apply layerOkAt_intro
      intro pj hEq'
      by_cases hll : lj = li
      · subst hll; rw [hLself] at hEq'; exact Option.noConfusion hEq'
      · rw [hLne lj hll] at hEq'
        obtain ⟨hpj, hbackj⟩ := layerOkAt_elim (hC.2 lj (hllen ▸ hlj)) hEq'
        have hpne : pj ≠ pi := by
          intro hx
          subst hx
          rw [hbackj] at hEq
          exact hll (Option.some.inj hEq)
        exact ⟨hplen ▸ hpj, by rw [hPne pj hpne]; exact hbackj⟩

theorem clear_fold_shape (idxs : List Nat) (d : Display) :
    displayShape (idxs.foldl clear_step d) = displayShape d := by
  induction idxs generalizing d with
  | nil => rfl
  | cons i t ih => rw [List.foldl_cons, ih, displayShape_clear_step]

theorem clear_fold_consistent (idxs : List Nat) {d : Display} (hC : Consistent d) :
    Consistent (idxs.foldl clear_step d) := by
  induction idxs generalizing d with
  | nil => exact hC
  | cons i t ih => exact ih (clear_step_consistent hC i)

theorem clear_fold_none (idxs : List Nat) (d : Display) {pj : Nat}
    (h : planeLayerAt d pj = none) :
    planeLayerAt (idxs.foldl clear_step d) pj = none := by
  induction idxs generalizing d with
  | nil => exact h
  | cons i t ih => exact ih _ (planeLayerAt_clear_step_none d i h)

theorem clear_fold_unpaired (idxs : List Nat) (d : Display) :
    ∀ pi ∈ idxs, planeLayerAt (idxs.foldl clear_step d) pi = none := by
  induction idxs generalizing d with
  | nil => intro pi hpi; cases hpi
  | cons i t ih =>
    intro pi hpi
    rw [List.foldl_cons]
    rcases List.mem_cons.mp hpi with rfl | hmem
    · exact clear_fold_none t _ (planeLayerAt_clear_step_self d pi)
    · exact ih _ pi hmem

theorem clear_phase_shape (d : Display) :
    displayShape (clear_phase d) = displayShape d := clear_fold_shape _ d

theorem clear_phase_consistent {d : Display} (hC : Consistent d) :
    Consistent (clear_phase d) := clear_fold_consistent _ hC

theorem clear_phase_planes_unpaired (d : Display) (pi : Nat) :
    planeLayerAt (clear_phase d) pi = none := by
  rcases Nat.lt_or_ge pi d.planes.length with hlt | hge
  · exact clear_fold_unpaired _ d pi (List.mem_range.mpr hlt)
  · apply planeLayerAt_out_of_range
    have := shape_planes_length (clear_phase_shape d)
    omega

theorem clear_phase_layers_unpaired {d : Display} (hC : Consistent d) (li : Nat) :
    layerPlaneAt (clear_phase d) li = none :=
  layers_unpaired_of_planes_unpaired (clear_phase_consistent hC)
    (clear_phase_planes_unpaired d) li

theorem clear_phase_allUnpaired {d : Display} (hC : Consistent d) :
    AllUnpaired (clear_phase d) :=
  ⟨planes_unpaired_mem (clear_phase_planes_unpaired d),
   layers_unpaired_mem (clear_phase_layers_unpaired hC)⟩

theorem clear_phase_of_allUnpaired {d : Display} (h : AllUnpaired d) :
    clear_phase d = d := by
  unfold clear_phase
  have hP := planes_unpaired_at h.1
  generalize (List.range d.planes.length) = idxs
  induction idxs with
  | nil => rfl
  | cons i t ih => rw [List.foldl_cons, clear_step_eq_of_none (hP i)]; exact ih

theorem plane_eq_of_shape {a b : Plane} (h : planeShape a = planeShape b)
    (ha : a.layer = none) (hb : b.layer = none) : a = b := by
  rcases a with ⟨i1, c1, p1, l1⟩
  rcases b with ⟨i2, c2, p2, l2⟩
  obtain rfl : l1 = none := ha
  obtain rfl : l2 = none := hb
  simp only [planeShape, Prod.mk.injEq] at h
  obtain ⟨rfl, rfl, rfl⟩ := h
  rfl

theorem layer_eq_of_shape {a b : Layer} (h : layerShape a = layerShape b)
    (ha : a.plane = none) (hb : b.plane = none) : a = b := by
  rcases a with ⟨o1, p1, l1⟩
  rcases b with ⟨o2, p2, l2⟩
  obtain rfl : l1 = none := ha
  obtain rfl : l2 = none := hb
  simp only [layerShape, Prod.mk.injEq] at h
  obtain ⟨rfl, rfl⟩ := h
  rfl

theorem planes_eq_of_shape : ∀ {l1 l2 : List Plane},
    l1.map planeShape = l2.map planeShape →
    (∀ p ∈ l1, p.layer = none) → (∀ p ∈ l2, p.layer = none) → l1 = l2
  | [], [], _, _, _ => rfl
  | [], _ :: _, h, _, _ => absurd h (by simp)
  | _ :: _, [], h, _, _ => absurd h (by simp)
  | a :: t1, b :: t2, h, h1, h2 => by
    simp only [List.map, List.cons.injEq] at h
    have hab := plane_eq_of_shape h.1 (h1 a (by simp)) (h2 b (by simp))
    have ht := planes_eq_of_shape h.2 (fun p hp => h1 p (by simp [hp]))
      (fun p hp => h2 p (by simp [hp]))
    rw [hab, ht]

theorem layers_eq_of_shape : ∀ {l1 l2 : List Layer},
    l1.map layerShape = l2.map layerShape →
    (∀ l ∈ l1, l.plane = none) → (∀ l ∈ l2, l.plane = none) → l1 = l2
  | [], [], _, _, _ => rfl
  | [], _ :: _, h, _, _ => absurd h (by simp)
  | _ :: _, [], h, _, _ => absurd h (by simp)
  | a :: t1, b :: t2, h, h1, h2 => by
    simp only [List.map, List.cons.injEq] at h
    have hab := layer_eq_of_shape h.1 (h1 a (by simp)) (h2 b (by simp))
    have ht := layers_eq_of_shape h.2 (fun l hl => h1 l (by simp [hl]))
      (fun l hl => h2 l (by simp [hl]))
    rw [hab, ht]

theorem eq_of_shape_allUnpaired {d1 d2 : Display}
    (h : displayShape d1 = displayShape d2)
    (h1 : AllUnpaired d1) (h2 : AllUnpaired d2) : d1 = d2 := by
  obtain ⟨hu1, hv1⟩ := h1
  obtain ⟨hu2, hv2⟩ := h2
  rcases d1 with ⟨p1, o1, L1⟩
  rcases d2 with ⟨p2, o2, L2⟩
  simp only [displayShape, Prod.mk.injEq] at h
  obtain ⟨hp, ho, hL⟩ := h
  rw [planes_eq_of_shape hp hu1 hu2, ho, layers_eq_of_shape hL hv1 hv2]

/-! ## The property application engine -/

theorem plane_apply_props_extends (plane : Plane) (ps : List LayerProp) :
    ∀ req, ∃ t, (plane_apply_props plane ps req).2 = req ++ t := by
  induction ps with
  | nil => intro req; exact ⟨[], by simp [plane_apply_props]⟩
  | cons lp rest ih =>
    intro req
    unfold plane_apply_props
    cases plane_get_property plane lp.name with
    | none => exact ⟨[], by simp⟩
    | some pp =>
      obtain ⟨t, ht⟩ := ih (plane_set_prop plane req pp lp.value)
      refine ⟨⟨plane.id, pp.id, lp.value⟩ :: t, ?_⟩
      rw [ht]
      simp [plane_set_prop]

theorem plane_apply_extends {outputs : List Output} {plane : Plane}
    {ol : Option Layer} {req : List AtomicEntry} {b : Bool}
    {req' : List AtomicEntry}
    (h : plane_apply outputs plane ol req = some (b, req')) :
    ∃ t, req' = req ++ t := by
  cases ol with
  | none =>
    cases hFB : plane_get_property plane "FB_ID" with
    | none =>
      simp only [plane_apply, hFB] at h
      exact Option.noConfusion h
    | some pp =>
      simp only [plane_apply, hFB, Option.some.injEq, Prod.mk.injEq] at h
      exact ⟨[⟨plane.id, pp.id, 0⟩], h.2.symm⟩
  | some layer =>
    cases hCR : plane_get_property plane "CRTC_ID" with
    | none =>
      simp only [plane_apply, hCR] at h
      exact Option.noConfusion h
    | some pp =>
      simp only [plane_apply, hCR, Option.some.injEq] at h
      obtain ⟨t, ht⟩ := plane_apply_props_extends plane layer.props
        (plane_set_prop plane req pp (outputs.getD layer.output default).crtc_id)
      refine ⟨⟨plane.id, pp.id, (outputs.getD layer.output default).crtc_id⟩ :: t, ?_⟩
      have hr : req' = (plane_apply_props plane layer.props
          (plane_set_prop plane req pp (outputs.getD layer.output default).crtc_id)).2 := by
        rw [h]
      rw [hr, ht]
      simp [plane_set_prop]

theorem plane_apply_props_success (plane : Plane) (ps : List LayerProp)
    (h : ∀ lp ∈ ps, (plane_get_property plane lp.name).isSome) :
    ∀ req, plane_apply_props plane ps req =
      (true, req ++ ps.map (fun lp =>
        ⟨plane.id, ((plane_get_property plane lp.name).getD default).id, lp.value⟩)) := by
  induction ps with
  | nil => intro req; simp [plane_apply_props]
  | cons lp rest ih =>
    intro req
    cases hEq : plane_get_property plane lp.name with
    | none =>
      have := h lp (by simp)
      rw [hEq] at this
      exact absurd this (by simp)
    | some pp =>
      simp only [plane_apply_props, hEq]
      rw [ih (fun q hq => h q (by simp [hq]))]
      simp [plane_set_prop, hEq]

theorem plane_apply_enable (outputs : List Output) (plane : Plane)
    (layer : Layer) (req : List AtomicEntry)
    (hc : (plane_get_property plane "CRTC_ID").isSome)
    (h : ∀ lp ∈ layer.props, (plane_get_property plane lp.name).isSome) :
    plane_apply outputs plane (some layer) req =
      some (true, req ++ enable_writes outputs plane layer) := by
  cases hEq : plane_get_property plane "CRTC_ID" with
  | none => rw [hEq] at hc; exact absurd hc (by simp)
  | some pp =>
    simp only [plane_apply, hEq]
    rw [plane_apply_props_success plane layer.props h]
    unfold enable_writes
    simp [plane_set_prop, hEq]

theorem plane_apply_disable (outputs : List Output) (plane : Plane)
    (req : List AtomicEntry)
    (h : (plane_get_property plane "FB_ID").isSome) :
    plane_apply outputs plane none req = some (true, req ++ [disableEntry plane]) := by
  cases hEq : plane_get_property plane "FB_ID" with
  | none => rw [hEq] at h; exact absurd h (by simp)
  | some pp =>
    simp only [plane_apply, hEq]
    unfold disableEntry
    simp [plane_set_prop, hEq]

theorem plane_apply_props_fails (plane : Plane) (ps : List LayerProp)
    (h : ∃ lp ∈ ps, plane_get_property plane lp.name = none) :
    ∀ req, (plane_apply_props plane ps req).1 = false := by
  induction ps with
  | nil => rcases h with ⟨lp, h1, _⟩; cases h1
  | cons lp rest ih =>
    intro req
    unfold plane_apply_props
    cases hEq : plane_get_property plane lp.name with
    | none => rfl
    | some pp =>
      rcases h with ⟨q, hq, hnone⟩
      rcases List.mem_cons.mp hq with rfl | hmem
      · rw [hEq] at hnone; exact Option.noConfusion hnone
      · exact ih ⟨q, hmem, hnone⟩ _

theorem plane_apply_enable_fails (outputs : List Output) (plane : Plane)
    (layer : Layer) (req : List AtomicEntry)
    (hc : (plane_get_property plane "CRTC_ID").isSome)
    (h : ∃ lp ∈ layer.props, plane_get_property plane lp.name = none) :
    ∃ req', plane_apply outputs plane (some layer) req = some (false, req') := by
  cases hEq : plane_get_property plane "CRTC_ID" with
  | none => rw [hEq] at hc; exact absurd hc (by simp)
  | some pp =>
    simp only [plane_apply, hEq, Option.some.injEq]
    refine ⟨(plane_apply_props plane layer.props
      (plane_set_prop plane req pp (outputs.getD layer.output default).crtc_id)).2, ?_⟩
    have hf := plane_apply_props_fails plane layer.props h
      (plane_set_prop plane req pp (outputs.getD layer.output default).crtc_id)
    rw [← hf]

/-! ## The disable phase -/

theorem forall_mem_getD {α} [Inhabited α] {l : List α} {P : α → Prop}
    (h : ∀ x ∈ l, P x) {i : Nat} (hi : i < l.length) : P (l.getD i default) := by
  rw [List.getD_eq_getElem _ _ hi]
  exact h _ (List.getElem_mem hi)

theorem range_map_getD {α β} [Inhabited α] (l : List α) (f : α → β) :
    (List.range l.length).map (fun i => f (l.getD i default)) = l.map f := by
  apply List.ext_getElem (by simp)
  intro n h1 h2
  have hn : n < l.length := by simpa using h2
  simp only [List.getElem_map, List.getElem_range]
  rw [List.getD_eq_getElem _ _ hn]

theorem disable_planes_spec (d : Display) (idxs : List Nat) :
    ∀ req,
    (∀ pi ∈ idxs, (plane_get_property (d.planes.getD pi default) "FB_ID").isSome) →
    (∀ pi ∈ idxs, planeLayerAt d pi = none) →
    disable_planes d idxs req =
      some (true, req ++ idxs.map (fun pi => disableEntry (d.planes.getD pi default))) := by
  induction idxs with
  | nil => intro req _ _; simp [disable_planes]
  | cons i t ih =>
    intro req hFB hUnp
    have hguard : (d.planes.getD i default).layer = none := hUnp i (by simp)
    simp only [disable_planes, hguard,
      plane_apply_disable d.outputs (d.planes.getD i default) req (hFB i (by simp))]
    rw [ih _ (fun pi hpi => hFB pi (by simp [hpi])) (fun pi hpi => hUnp pi (by simp [hpi]))]
    simp

/-! ## Pairing lemmas -/

theorem pair_planes_length (d : Display) (pi li : Nat) :
    (pairPlaneLayer d pi li).planes.length = d.planes.length := by
  unfold pairPlaneLayer
  rw [setPlaneLayer_planes_length]
  rfl

theorem pair_layers_length (d : Display) (pi li : Nat) :
    (pairPlaneLayer d pi li).layers.length = d.layers.length := by
  unfold pairPlaneLayer
  exact setLayerPlane_layers_length ..

theorem planeLayerAt_pair_self (d : Display) (pi li : Nat)
    (h : pi < d.planes.length) :
    planeLayerAt (pairPlaneLayer d pi li) pi = some li := by
  unfold pairPlaneLayer
  rw [planeLayerAt_setPlaneLayer_self]
  exact h

theorem planeLayerAt_pair_ne (d : Display) (pi li : Nat) {pj : Nat}
    (h : pj ≠ pi) :
    planeLayerAt (pairPlaneLayer d pi li) pj = planeLayerAt d pj := by
  unfold pairPlaneLayer
  rw [planeLayerAt_setPlaneLayer_ne _ _ (fun hx => h hx.symm),
    planeLayerAt_setLayerPlane]

theorem layerPlaneAt_pair_self (d : Display) (pi li : Nat)
    (h : li < d.layers.length) :
    layerPlaneAt (pairPlaneLayer d pi li) li = some pi := by
  unfold pairPlaneLayer
  have : layerPlaneAt (setPlaneLayer (setLayerPlane d li pi) pi li) li
      = layerPlaneAt (setLayerPlane d li pi) li := rfl
  rw [this, layerPlaneAt_setLayerPlane_self _ _ _ h]

theorem layerPlaneAt_pair_ne (d : Display) (pi li : Nat) {lj : Nat}
    (h : lj ≠ li) :
    layerPlaneAt (pairPlaneLayer d pi li) lj = layerPlaneAt d lj := by
  unfold pairPlaneLayer
  have : layerPlaneAt (setPlaneLayer (setLayerPlane d li pi) pi li) lj
      = layerPlaneAt (setLayerPlane d li pi) lj := rfl
  rw [this, layerPlaneAt_setLayerPlane_ne _ _ (fun hx => h hx.symm)]

/-- Pairing a currently-unpaired plane with a currently-unpaired layer
preserves mutual consistency. -/
theorem pair_consistent {d : Display} (hC : Consistent d) {pi li : Nat}
    (hpi : pi < d.planes.length) (hli : li < d.layers.length)
    (hup : planeLayerAt d pi = none) (hul : layerPlaneAt d li = none) :
    Consistent (pairPlaneLayer d pi li) := by
  have hplen := pair_planes_length d pi li
  have hllen := pair_layers_length d pi li
  constructor
  · intro pj hpj
    apply planeOkAt_intro
    intro lj hEq'
    by_cases hpp : pj = pi
    · subst hpp
      rw [planeLayerAt_pair_self d pj li hpi] at hEq'
      obtain rfl : li = lj := Option.some.inj hEq'
      exact ⟨hllen ▸ hli, by rw [layerPlaneAt_pair_self d pj li hli]⟩
    · rw [planeLayerAt_pair_ne d pi li hpp] at hEq'
      obtain ⟨hlj, hbackj⟩ := planeOkAt_elim (hC.1 pj (hplen ▸ hpj)) hEq'
      have hlne : lj ≠ li := by
        intro hx
        subst hx
        rw [hbackj] at hul
        exact Option.noConfusion hul
      exact ⟨hllen ▸ hlj, by rw [layerPlaneAt_pair_ne d pi li hlne]; exact hbackj⟩
  · intro lj hlj
    apply layerOkAt_intro
    intro pj hEq'
    by_cases hll : lj = li
    · subst hll
      rw [layerPlaneAt_pair_self d pi lj hli] at hEq'
      obtain rfl : pj = pi := (Option.some.inj hEq').symm
      exact ⟨hplen ▸ hpi, by rw [planeLayerAt_pair_self d pj lj hpi]⟩
    · rw [layerPlaneAt_pair_ne d pi li hll] at hEq'
      obtain ⟨hpj, hbackj⟩ := layerOkAt_elim (hC.2 lj (hllen ▸ hlj)) hEq'
      have hpne : pj ≠ pi := by
        intro hx
        subst hx
        rw [hbackj] at hup
        exact Option.noConfusion hup
      exact ⟨hplen ▸ hpj, by rw [planeLayerAt_pair_ne d pi li hpne]; exact hbackj⟩

/-! ## Step equations of the candidate loop -/

theorem layer_try_skip {d : Display} {pi lj : Nat} (drv : Driver) (li : Nat)
    (layer : Layer) (cursor : Nat) (rest : List Nat) (req : List AtomicEntry)
    (h : planeLayerAt d pi = some lj) :
    layer_try_planes drv d li layer cursor (pi :: rest) req =
      layer_try_planes drv d li layer cursor rest req := by
  have h' : (d.planes.getD pi default).layer = some lj := h
  simp only [layer_try_planes, h']

theorem layer_try_applyfail {d : Display} {pi : Nat} {req'' : List AtomicEntry}
    (drv : Driver) (li : Nat) (layer : Layer) (cursor : Nat) (rest : List Nat)
    (req : List AtomicEntry) (h : planeLayerAt d pi = none)
    (ha : plane_apply d.outputs (d.planes.getD pi default) (some layer) req =
      some (false, req'')) :
    layer_try_planes drv d li layer cursor (pi :: rest) req =
      some (false, d, req'', []) := by
  have h' : (d.planes.getD pi default).layer = none := h
  simp only [layer_try_planes, h', ha]

theorem layer_try_success {d : Display} {pi : Nat} {req' : List AtomicEntry}
    (drv : Driver) (li : Nat) (layer : Layer) (cursor : Nat) (rest : List Nat)
    (req : List AtomicEntry) (h : planeLayerAt d pi = none)
    (ha : plane_apply d.outputs (d.planes.getD pi default) (some layer) req =
      some (true, req'))
    (hr : drv req' = 0) :
    layer_try_planes drv d li layer cursor (pi :: rest) req =
      some (true, pairPlaneLayer d pi li, req', [⟨pi, li, req', 0⟩]) := by
  have h' : (d.planes.getD pi default).layer = none := h
  simp only [layer_try_planes, h', ha, hr]
  simp

theorem layer_try_fatal {d : Display} {pi : Nat} {req' : List AtomicEntry}
    (drv : Driver) (li : Nat) (layer : Layer) (cursor : Nat) (rest : List Nat)
    (req : List AtomicEntry) (h : planeLayerAt d pi = none)
    (ha : plane_apply d.outputs (d.planes.getD pi default) (some layer) req =
      some (true, req'))
    (hr0 : drv req' ≠ 0)
    (hfat : -(drv req') ≠ EINVAL ∧ -(drv req') ≠ ERANGE) :
    layer_try_planes drv d li layer cursor (pi :: rest) req =
      some (false, d, req', [⟨pi, li, req', drv req'⟩]) := by
  have h' : (d.planes.getD pi default).layer = none := h
  simp only [layer_try_planes, h', ha]
  rw [if_neg hr0, if_pos hfat]

theorem layer_try_rollback {d : Display} {pi : Nat} {req' : List AtomicEntry}
    (drv : Driver) (li : Nat) (layer : Layer) (cursor : Nat) (rest : List Nat)
    (req : List AtomicEntry) (h : planeLayerAt d pi = none)
    (ha : plane_apply d.outputs (d.planes.getD pi default) (some layer) req =
      some (true, req'))
    (hr0 : drv req' ≠ 0)
    (hinf : -(drv req') = EINVAL ∨ -(drv req') = ERANGE) :
    layer_try_planes drv d li layer cursor (pi :: rest) req =
      (layer_try_planes drv d li layer cursor rest (req'.take cursor)).map
        (fun r => (r.1, r.2.1, r.2.2.1, (⟨pi, li, req', drv req'⟩ : Trial) :: r.2.2.2)) := by
  have h' : (d.planes.getD pi default).layer = none := h
  simp only [layer_try_planes, h', ha]
  rw [if_neg hr0, if_neg (fun hand => by rcases hinf with hx | hx; exacts [hand.1 hx, hand.2 hx])]

theorem rollback_take {req req' : List AtomicEntry} {cursor : Nat}
    (hcur : cursor = req.length) (ht : ∃ t, req' = req ++ t) :
    req'.take cursor = req := by
  rcases ht with ⟨t, rfl⟩
  rw [hcur]
  exact List.take_left req t

theorem layer_try_assert {d : Display} {pi : Nat} (drv : Driver) (li : Nat)
    (layer : Layer) (cursor : Nat) (rest : List Nat) (req : List AtomicEntry)
    (h : planeLayerAt d pi = none)
    (ha : plane_apply d.outputs (d.planes.getD pi default) (some layer) req = none) :
    layer_try_planes drv d li layer cursor (pi :: rest) req = none := by
  have h' : (d.planes.getD pi default).layer = none := h
  simp only [layer_try_planes, h', ha]

/-- Master run lemma for the candidate loop: any completed run preserves
the display shape, touches no layer other than the current one and no
plane outside the index list, creates pairings only via a recorded
successful trial, preserves consistency, and stops at (and only at) a
fatal trial. -/
theorem layer_try_master (drv : Driver) (d : Display) (li : Nat) (layer : Layer)
    (idxs : List Nat) : ∀ (cursor : Nat) (req : List AtomicEntry) (b : Bool)
    (d' : Display) (req' : List AtomicEntry) (tr : List Trial),
    layer_try_planes drv d li layer cursor idxs req = some (b, d', req', tr) →
    displayShape d' = displayShape d ∧
    (∀ lj, lj ≠ li → layerPlaneAt d' lj = layerPlaneAt d lj) ∧
    (∀ pj, pj ∉ idxs → planeLayerAt d' pj = planeLayerAt d pj) ∧
    (∀ pj lj2, planeLayerAt d' pj = some lj2 → planeLayerAt d pj = some lj2 ∨
        (lj2 = li ∧ ∃ tt ∈ tr, tt.ret = 0 ∧ tt.plane = pj ∧ tt.layer = li)) ∧
    (∀ pj, layerPlaneAt d' li = some pj → layerPlaneAt d li = some pj ∨
        ∃ tt ∈ tr, tt.ret = 0 ∧ tt.plane = pj ∧ tt.layer = li) ∧
    ((∀ pi2 ∈ idxs, pi2 < d.planes.length) → li < d.layers.length →
        Consistent d → layerPlaneAt d li = none → Consistent d') ∧
    (∀ trpre tt trpost, tr = trpre ++ tt :: trpost →
        tt.ret ≠ 0 → -tt.ret ≠ EINVAL → -tt.ret ≠ ERANGE → b = false ∧ trpost = []) := by
  induction idxs with
  | nil =>
    intro cursor req b d' req' tr h
    simp only [layer_try_planes, Option.some.injEq, Prod.mk.injEq] at h
    obtain ⟨rfl, rfl, rfl, rfl⟩ := h
    refine ⟨rfl, fun _ _ => rfl, fun _ _ => rfl, fun pj lj2 hx => Or.inl hx,
      fun pj hx => Or.inl hx, fun _ _ hC _ => hC, ?_⟩
    intro trpre tt trpost hsp
    exact absurd hsp (by simp)
  | cons i t ih =>
    intro cursor req b d' req' tr h
    cases hP : planeLayerAt d i with
    | some lj =>
      rw [layer_try_skip drv li layer cursor t req hP] at h
      obtain ⟨h1, h2, h3, h4, h5, h6, h7⟩ := ih cursor req b d' req' tr h
      exact ⟨h1, h2, fun pj hpj => h3 pj (fun hx => hpj (List.mem_cons_of_mem _ hx)),
        h4, h5,
        fun hb hl hC hu => h6 (fun q hq => hb q (List.mem_cons_of_mem _ hq)) hl hC hu, h7⟩
    | none =>
      cases ha : plane_apply d.outputs (d.planes.getD i default) (some layer) req with
      | none =>
        rw [layer_try_assert drv li layer cursor t req hP ha] at h
        exact Option.noConfusion h
      | some br =>
        obtain ⟨bb, rq⟩ := br
        cases bb with
        | false =>
          rw [layer_try_applyfail drv li layer cursor t req hP ha] at h
          simp only [Option.some.injEq, Prod.mk.injEq] at h
          obtain ⟨rfl, rfl, rfl, rfl⟩ := h
          refine ⟨rfl, fun _ _ => rfl, fun _ _ => rfl, fun pj lj2 hx => Or.inl hx,
            fun pj hx => Or.inl hx, fun _ _ hC _ => hC, ?_⟩
          intro trpre tt trpost hsp
          exact absurd hsp (by simp)
        | true =>
          by_cases hr : drv rq = 0
          · rw [layer_try_success drv li layer cursor t req hP ha hr] at h
            simp only [Option.some.injEq, Prod.mk.injEq] at h
            obtain ⟨rfl, rfl, rfl, rfl⟩ := h
            refine ⟨displayShape_pair d i li,
              fun lj2 hlj2 => layerPlaneAt_pair_ne d i li hlj2, ?_, ?_, ?_, ?_, ?_⟩
            · intro pj hpj
              exact planeLayerAt_pair_ne d i li
                (fun hx => hpj (hx ▸ List.mem_cons_self i t))
            · intro pj lj2 hx
              by_cases hpp : pj = i
              · subst hpp
                have hlt : pj < d.planes.length := by
                  have := lt_of_planeLayerAt_some hx
                  rwa [pair_planes_length] at this
                rw [planeLayerAt_pair_self d pj li hlt] at hx
                exact Or.inr ⟨(Option.some.inj hx).symm, ⟨pj, li, rq, 0⟩, by simp⟩
              · rw [planeLayerAt_pair_ne d i li hpp] at hx
                exact Or.inl hx
            · intro pj hx
              rcases Nat.lt_or_ge li d.layers.length with hlt | hge
              · rw [layerPlaneAt_pair_self d i li hlt] at hx
                exact Or.inr ⟨⟨i, li, rq, 0⟩, by simp,
                  by simp [(Option.some.inj hx).symm]⟩
              · have hnone : layerPlaneAt (pairPlaneLayer d i li) li = none := by
                  apply layerPlaneAt_out_of_range
                  rwa [pair_layers_length]
                rw [hnone] at hx
                exact Option.noConfusion hx
            · intro hb2 hl hC hu
              exact pair_consistent hC (hb2 i (List.mem_cons_self i t)) hl hP hu
            · intro trpre tt trpost hsp hret _ _
              cases trpre with
              | nil =>
                simp only [List.nil_append, List.cons.injEq] at hsp
                refine absurd ?_ hret
                rw [← hsp.1]
              | cons a pre2 =>
                simp only [List.cons_append, List.cons.injEq] at hsp
                exact absurd hsp.2 (by simp)
          · by_cases hfat : -(drv rq) ≠ EINVAL ∧ -(drv rq) ≠ ERANGE
            · rw [layer_try_fatal drv li layer cursor t req hP ha hr hfat] at h
              simp only [Option.some.injEq, Prod.mk.injEq] at h
              obtain ⟨rfl, rfl, rfl, rfl⟩ := h
              refine ⟨rfl, fun _ _ => rfl, fun _ _ => rfl, fun pj lj2 hx => Or.inl hx,
                fun pj hx => Or.inl hx, fun _ _ hC _ => hC, ?_⟩
              intro trpre tt trpost hsp _ _ _
              cases trpre with
              | nil =>
                simp only [List.nil_append, List.cons.injEq] at hsp
                exact ⟨rfl, hsp.2.symm⟩
              | cons a pre2 =>
                simp only [List.cons_append, List.cons.injEq] at hsp
                exact absurd hsp.2 (by simp)
            · have hinf : -(drv rq) = EINVAL ∨ -(drv rq) = ERANGE := by
                rcases not_and_or.mp hfat with hx | hx
                · exact Or.inl (not_not.mp hx)
                · exact Or.inr (not_not.mp hx)
              rw [layer_try_rollback drv li layer cursor t req hP ha hr hinf] at h
              cases hrec : layer_try_planes drv d li layer cursor t (rq.take cursor) with
              | none =>
                rw [hrec] at h
                exact Option.noConfusion h
              | some r =>
                obtain ⟨rb, rd, rr, rt⟩ := r
                rw [hrec] at h
                simp only [Option.map, Option.some.injEq, Prod.mk.injEq] at h
                obtain ⟨h1, h2, h3, h4, h5, h6, h7⟩ :=
                  ih cursor (rq.take cursor) rb rd rr rt hrec
                obtain ⟨rfl, rfl, rfl, rfl⟩ := h
                refine ⟨h1, h2,
                  fun pj hpj => h3 pj (fun hx => hpj (List.mem_cons_of_mem _ hx)),
                  ?_, ?_,
                  fun hb2 hl hC hu =>
                    h6 (fun q hq => hb2 q (List.mem_cons_of_mem _ hq)) hl hC hu,
                  ?_⟩
                · intro pj lj2 hx
                  rcases h4 pj lj2 hx with hleft | ⟨hlj2, tt, htt, http⟩
                  · exact Or.inl hleft
                  · exact Or.inr ⟨hlj2, tt, List.mem_cons_of_mem _ htt, http⟩
                · intro pj hx
                  rcases h5 pj hx with hleft | ⟨tt, htt, http⟩
                  · exact Or.inl hleft
                  · exact Or.inr ⟨tt, List.mem_cons_of_mem _ htt, http⟩
                · intro trpre tt trpost hsp hret hf1 hf2
                  cases trpre with
                  | nil =>
                    simp only [List.nil_append, List.cons.injEq] at hsp
                    obtain ⟨hteq, -⟩ := hsp
                    rcases hinf with hx | hx
                    · refine absurd ?_ hf1
                      rw [← hteq]
                      exact hx
                    · refine absurd ?_ hf2
                      rw [← hteq]
                      exact hx
                  | cons a pre2 =>
                    simp only [List.cons_append, List.cons.injEq] at hsp
                    exact h7 pre2 tt trpost hsp.2 hret hf1 hf2

/-- The candidate loop leaves everything unchanged when every unpaired
candidate's test is rejected as structurally infeasible: the rollback
restores the request exactly and the loop returns `true`. -/
theorem layer_try_all_fail (drv : Driver) (d : Display) (li : Nat) (layer : Layer)
    (idxs : List Nat) : ∀ (req : List AtomicEntry) (cursor : Nat),
    cursor = req.length →
    (∀ pi ∈ idxs, planeLayerAt d pi = none →
      ∃ rq, plane_apply d.outputs (d.planes.getD pi default) (some layer) req =
          some (true, rq) ∧
        drv rq ≠ 0 ∧ (-(drv rq) = EINVAL ∨ -(drv rq) = ERANGE)) →
    ∃ tr, layer_try_planes drv d li layer cursor idxs req = some (true, d, req, tr) := by
  induction idxs with
  | nil =>
    intro req cursor hcur hall
    exact ⟨[], by simp [layer_try_planes]⟩
  | cons i t ih =>
    intro req cursor hcur hall
    cases hP : planeLayerAt d i with
    | some lj =>
      rw [layer_try_skip drv li layer cursor t req hP]
      exact ih req cursor hcur (fun pi hpi => hall pi (List.mem_cons_of_mem _ hpi))
    | none =>
      obtain ⟨rq, ha, hr0, hinf⟩ := hall i (List.mem_cons_self i t) hP
      rw [layer_try_rollback drv li layer cursor t req hP ha hr0 hinf,
        rollback_take hcur (plane_apply_extends ha)]
      obtain ⟨tr, htr⟩ := ih req cursor hcur
        (fun pi hpi => hall pi (List.mem_cons_of_mem _ hpi))
      rw [htr]
      exact ⟨⟨i, li, rq, drv rq⟩ :: tr, rfl⟩

/-- The candidate loop pairs the first unpaired plane whose test succeeds,
after rejecting every earlier unpaired candidate as infeasible. -/
theorem layer_try_first_success (drv : Driver) (d : Display) (li : Nat)
    (layer : Layer) (idxs1 : List Nat) :
    ∀ (req : List AtomicEntry) (cursor : Nat), cursor = req.length →
    (∀ pi ∈ idxs1, planeLayerAt d pi = none →
      ∃ rq, plane_apply d.outputs (d.planes.getD pi default) (some layer) req =
          some (true, rq) ∧
        drv rq ≠ 0 ∧ (-(drv rq) = EINVAL ∨ -(drv rq) = ERANGE)) →
    ∀ (k : Nat) (idxs2 : List Nat) (req' : List AtomicEntry),
    planeLayerAt d k = none →
    plane_apply d.outputs (d.planes.getD k default) (some layer) req =
      some (true, req') →
    drv req' = 0 →
    ∃ tr, layer_try_planes drv d li layer cursor (idxs1 ++ k :: idxs2) req =
      some (true, pairPlaneLayer d k li, req', tr) := by
  induction idxs1 with
  | nil =>
    intro req cursor hcur hall k idxs2 req' hk ha hr
    rw [List.nil_append, layer_try_success drv li layer cursor idxs2 req hk ha hr]
    exact ⟨[⟨k, li, req', 0⟩], rfl⟩
  | cons i t ih =>
    intro req cursor hcur hall k idxs2 req' hk ha hr
    rw [List.cons_append]
    cases hP : planeLayerAt d i with
    | some lj =>
      rw [layer_try_skip drv li layer cursor _ req hP]
      exact ih req cursor hcur (fun pi hpi => hall pi (List.mem_cons_of_mem _ hpi))
        k idxs2 req' hk ha hr
    | none =>
      obtain ⟨rq, haf, hr0, hinf⟩ := hall i (List.mem_cons_self i t) hP
      rw [layer_try_rollback drv li layer cursor _ req hP haf hr0 hinf,
        rollback_take hcur (plane_apply_extends haf)]
      obtain ⟨tr, htr⟩ := ih req cursor hcur
        (fun pi hpi => hall pi (List.mem_cons_of_mem _ hpi)) k idxs2 req' hk ha hr
      rw [htr]
      exact ⟨⟨i, li, rq, drv rq⟩ :: tr, rfl⟩

/-- `layer_choose_plane` unfolded to the candidate loop: cursor recorded
as the request's current length, candidates are all plane indices in
registry order. -/
theorem layer_choose_plane_eq (drv : Driver) (d : Display) (li : Nat)
    (req : List AtomicEntry) :
    layer_choose_plane drv d li req =
      layer_try_planes drv d li (d.layers.getD li default) req.length
        (List.range d.planes.length) req := rfl

/-- Master run lemma lifted to `layer_choose_plane`. -/
theorem layer_choose_master (drv : Driver) (d : Display) (li : Nat)
    (req : List AtomicEntry) (b : Bool) (d' : Display)
    (req' : List AtomicEntry) (tr : List Trial)
    (h : layer_choose_plane drv d li req = some (b, d', req', tr)) :
    displayShape d' = displayShape d ∧
    (∀ lj, lj ≠ li → layerPlaneAt d' lj = layerPlaneAt d lj) ∧
    (∀ pj lj2, planeLayerAt d' pj = some lj2 → planeLayerAt d pj = some lj2 ∨
        (lj2 = li ∧ ∃ tt ∈ tr, tt.ret = 0 ∧ tt.plane = pj ∧ tt.layer = li)) ∧
    (∀ pj, layerPlaneAt d' li = some pj → layerPlaneAt d li = some pj ∨
        ∃ tt ∈ tr, tt.ret = 0 ∧ tt.plane = pj ∧ tt.layer = li) ∧
    (li < d.layers.length → Consistent d → layerPlaneAt d li = none →
        Consistent d') ∧
    (∀ trpre tt trpost, tr = trpre ++ tt :: trpost →
        tt.ret ≠ 0 → -tt.ret ≠ EINVAL → -tt.ret ≠ ERANGE → b = false ∧ trpost = []) := by
  rw [layer_choose_plane_eq] at h
  obtain ⟨h1, h2, h3, h4, h5, h6, h7⟩ := layer_try_master drv d li
    (d.layers.getD li default) (List.range d.planes.length) req.length req
    b d' req' tr h
  exact ⟨h1, h2, h4, h5,
    fun hl hC hu => h6 (fun q hq => List.mem_range.mp hq) hl hC hu, h7⟩

/-- Master run lemma for the inner match-phase loop (the layers of one
output, in list order). -/
theorem match_layers_master (drv : Driver) (lis : List Nat) :
    ∀ (d : Display) (req : List AtomicEntry) (b : Bool) (d' : Display)
      (req' : List AtomicEntry) (tr : List Trial),
    match_layers drv d lis req = some (b, d', req', tr) →
    displayShape d' = displayShape d ∧
    (∀ lj, lj ∉ lis → layerPlaneAt d' lj = layerPlaneAt d lj) ∧
    (∀ pj lj2, planeLayerAt d' pj = some lj2 → planeLayerAt d pj = some lj2 ∨
        ∃ tt ∈ tr, tt.ret = 0 ∧ tt.plane = pj ∧ tt.layer = lj2) ∧
    (∀ lj pj, layerPlaneAt d' lj = some pj → layerPlaneAt d lj = some pj ∨
        ∃ tt ∈ tr, tt.ret = 0 ∧ tt.plane = pj ∧ tt.layer = lj) ∧
    ((∀ li ∈ lis, li < d.layers.length) → lis.Nodup →
      (∀ li ∈ lis, layerPlaneAt d li = none) → Consistent d → Consistent d') ∧
    (∀ trpre tt trpost, tr = trpre ++ tt :: trpost →
        tt.ret ≠ 0 → -tt.ret ≠ EINVAL → -tt.ret ≠ ERANGE → b = false ∧ trpost = []) := by
  induction lis with
  | nil =>
    intro d req b d' req' tr h
    simp only [match_layers, Option.some.injEq, Prod.mk.injEq] at h
    obtain ⟨rfl, rfl, rfl, rfl⟩ := h
    refine ⟨rfl, fun _ _ => rfl, fun pj lj2 hx => Or.inl hx,
      fun lj pj hx => Or.inl hx, fun _ _ _ hC => hC, ?_⟩
    intro trpre tt trpost hsp
    exact absurd hsp (by simp)
  | cons li rest ih =>
    intro d req b d' req' tr h
    cases hlc : layer_choose_plane drv d li req with
    | none =>
      simp only [match_layers, hlc] at h
      exact Option.noConfusion h
    | some lcres =>
      obtain ⟨lb, d1, r1, t1⟩ := lcres
      obtain ⟨g1, g2, g3, g4, g5, g6⟩ := layer_choose_master drv d li req lb d1 r1 t1 hlc
      cases lb with
      | false =>
        simp only [match_layers, hlc, Option.some.injEq, Prod.mk.injEq] at h
        obtain ⟨rfl, rfl, rfl, rfl⟩ := h
        refine ⟨g1, fun lj hlj => g2 lj (fun hx => hlj (by simp [hx])), ?_, ?_,
          fun hb hn hu hC => g5 (hb li (by simp)) hC (hu li (by simp)), ?_⟩
        · intro pj lj2 hx
          rcases g3 pj lj2 hx with hl | ⟨rfl, tt, htt, h0, hp, hlay⟩
          · exact Or.inl hl
          · exact Or.inr ⟨tt, htt, h0, hp, hlay⟩
        · intro lj pj hx
          by_cases hll : lj = li
          · subst hll
            rcases g4 pj hx with hl | ⟨tt, htt, hres⟩
            · exact Or.inl hl
            · exact Or.inr ⟨tt, htt, hres⟩
          · refine Or.inl ?_
            rw [← g2 lj hll]
            exact hx
        · intro trpre tt trpost hsp hret hf1 hf2
          exact ⟨rfl, (g6 trpre tt trpost hsp hret hf1 hf2).2⟩
      | true =>
        cases hrec : match_layers drv d1 rest r1 with
        | none =>
          simp only [match_layers, hlc, hrec] at h
          exact Option.noConfusion h
        | some rres =>
          obtain ⟨rb, rd, rr, rt⟩ := rres
          simp only [match_layers, hlc, hrec, Option.map, Option.some.injEq,
            Prod.mk.injEq] at h
          obtain ⟨m1, m2, m3, m4, m5, m6⟩ := ih d1 r1 rb rd rr rt hrec
          obtain ⟨rfl, rfl, rfl, rfl⟩ := h
          refine ⟨m1.trans g1, ?_, ?_, ?_, ?_, ?_⟩
          · intro lj hlj
            rw [m2 lj (fun hx => hlj (by simp [hx]))]
            exact g2 lj (fun hx => hlj (by simp [hx]))
          · intro pj lj2 hx
            rcases m3 pj lj2 hx with hmid | ⟨tt, htt, hres⟩
            · rcases g3 pj lj2 hmid with hl | ⟨rfl, tt, htt, h0, hp, hlay⟩
              · exact Or.inl hl
              · exact Or.inr ⟨tt, List.mem_append.mpr (Or.inl htt), h0, hp, hlay⟩
            · exact Or.inr ⟨tt, List.mem_append.mpr (Or.inr htt), hres⟩
          · intro lj pj hx
            rcases m4 lj pj hx with hmid | ⟨tt, htt, hres⟩
            · by_cases hll : lj = li
              · subst hll
                rcases g4 pj hmid with hl | ⟨tt, htt, hres⟩
                · exact Or.inl hl
                · exact Or.inr ⟨tt, List.mem_append.mpr (Or.inl htt), hres⟩
              · refine Or.inl ?_
                rw [← g2 lj hll]
                exact hmid
            · exact Or.inr ⟨tt, List.mem_append.mpr (Or.inr htt), hres⟩
          · intro hb hn hu hC
            have hC1 : Consistent d1 := g5 (hb li (by simp)) hC (hu li (by simp))
            apply m5
            · intro lx hlx
              have hx := hb lx (by simp [hlx])
              rwa [shape_layers_length g1]
            · exact (List.nodup_cons.mp hn).2
            · intro lx hlx
              have hne : lx ≠ li := fun hx => (List.nodup_cons.mp hn).1 (hx ▸ hlx)
              rw [g2 lx hne]
              exact hu lx (by simp [hlx])
            · exact hC1
          · intro trpre tt trpost hsp hret hf1 hf2
            rcases List.append_eq_append_iff.mp hsp with
              ⟨a2, ha1, ha2⟩ | ⟨c2, hc1, hc2⟩
            · exact m6 a2 tt trpost ha2 hret hf1 hf2
            · cases c2 with
              | nil =>
                simp only [List.nil_append] at hc2
                exact m6 [] tt trpost hc2.symm hret hf1 hf2
              | cons x c3 =>
                simp only [List.cons_append, List.cons.injEq] at hc2
                obtain ⟨rfl, -⟩ := hc2
                have := (g6 trpre tt c3 hc1 hret hf1 hf2).1
                exact absurd this (by simp)

/-- Master run lemma for the outer match-phase loop (outputs in defined
order). -/
theorem match_outputs_master (drv : Driver) (outs : List Output) :
    ∀ (d : Display) (req : List AtomicEntry) (b : Bool) (d' : Display)
      (req' : List AtomicEntry) (tr : List Trial),
    match_outputs drv d outs req = some (b, d', req', tr) →
    displayShape d' = displayShape d ∧
    (∀ pj lj2, planeLayerAt d' pj = some lj2 → planeLayerAt d pj = some lj2 ∨
        ∃ tt ∈ tr, tt.ret = 0 ∧ tt.plane = pj ∧ tt.layer = lj2) ∧
    (∀ lj pj, layerPlaneAt d' lj = some pj → layerPlaneAt d lj = some pj ∨
        ∃ tt ∈ tr, tt.ret = 0 ∧ tt.plane = pj ∧ tt.layer = lj) ∧
    ((∀ o ∈ outs, ∀ li ∈ o.layers, li < d.layers.length) →
      ((outs.map Output.layers).flatten).Nodup →
      (∀ o ∈ outs, ∀ li ∈ o.layers, layerPlaneAt d li = none) →
      Consistent d → Consistent d') ∧
    (∀ trpre tt trpost, tr = trpre ++ tt :: trpost →
        tt.ret ≠ 0 → -tt.ret ≠ EINVAL → -tt.ret ≠ ERANGE → b = false ∧ trpost = []) := by
  induction outs with
  | nil =>
    intro d req b d' req' tr h
    simp only [match_outputs, Option.some.injEq, Prod.mk.injEq] at h
    obtain ⟨rfl, rfl, rfl, rfl⟩ := h
    refine ⟨rfl, fun pj lj2 hx => Or.inl hx, fun lj pj hx => Or.inl hx,
      fun _ _ _ hC => hC, ?_⟩
    intro trpre tt trpost hsp
    exact absurd hsp (by simp)
  | cons o rest ih =>
    intro d req b d' req' tr h
    cases hml : match_layers drv d o.layers req with
    | none =>
      simp only [match_outputs, hml] at h
      exact Option.noConfusion h
    | some mres =>
      obtain ⟨mb, d1, r1, t1⟩ := mres
      obtain ⟨g1, g2, g3, g4, g5, g6⟩ :=
        match_layers_master drv o.layers d req mb d1 r1 t1 hml
      cases mb with
      | false =>
        simp only [match_outputs, hml, Option.some.injEq, Prod.mk.injEq] at h
        obtain ⟨rfl, rfl, rfl, rfl⟩ := h
        refine ⟨g1, g3, g4,
          fun hb hn hu hC => g5 (fun li hli => hb o (by simp) li hli)
            (by
              rw [List.map_cons, List.flatten_cons] at hn
              exact (List.nodup_append.mp hn).1)
            (fun li hli => hu o (by simp) li hli) hC, ?_⟩
        intro trpre tt trpost hsp hret hf1 hf2
        exact ⟨rfl, (g6 trpre tt trpost hsp hret hf1 hf2).2⟩
      | true =>
        cases hrec : match_outputs drv d1 rest r1 with
        | none =>
          simp only [match_outputs, hml, hrec] at h
          exact Option.noConfusion h
        | some rres =>
          obtain ⟨rb, rd, rr, rt⟩ := rres
          simp only [match_outputs, hml, hrec, Option.map, Option.some.injEq,
            Prod.mk.injEq] at h
          obtain ⟨m1, m2, m3, m4, m5⟩ := ih d1 r1 rb rd rr rt hrec
          obtain ⟨rfl, rfl, rfl, rfl⟩ := h
          refine ⟨m1.trans g1, ?_, ?_, ?_, ?_⟩
          · intro pj lj2 hx
            rcases m2 pj lj2 hx with hmid | ⟨tt, htt, hres⟩
            · rcases g3 pj lj2 hmid with hl | ⟨tt, htt, hres⟩
              · exact Or.inl hl
              · exact Or.inr ⟨tt, List.mem_append.mpr (Or.inl htt), hres⟩
            · exact Or.inr ⟨tt, List.mem_append.mpr (Or.inr htt), hres⟩
          · intro lj pj hx
            rcases m3 lj pj hx with hmid | ⟨tt, htt, hres⟩
            · rcases g4 lj pj hmid with hl | ⟨tt, htt, hres⟩
              · exact Or.inl hl
              · exact Or.inr ⟨tt, List.mem_append.mpr (Or.inl htt), hres⟩
            · exact Or.inr ⟨tt, List.mem_append.mpr (Or.inr htt), hres⟩
          · intro hb hn hu hC
            rw [List.map_cons, List.flatten_cons] at hn
            obtain ⟨n1, n2, disj⟩ := List.nodup_append.mp hn
            have hC1 : Consistent d1 :=
              g5 (fun li hli => hb o (by simp) li hli) n1
                (fun li hli => hu o (by simp) li hli) hC
            apply m4
            · intro o2 ho2 li hli
              have hx := hb o2 (by simp [ho2]) li hli
              rwa [shape_layers_length g1]
            · exact n2
            · intro o2 ho2 li hli
              have hmemflat : li ∈ (rest.map Output.layers).flatten :=
                List.mem_flatten.mpr ⟨o2.layers, List.mem_map.mpr ⟨o2, ho2, rfl⟩, hli⟩
              have hnotin : li ∉ o.layers := fun hin => disj hin hmemflat
              rw [g2 li hnotin]
              exact hu o2 (by simp [ho2]) li hli
            · exact hC1
          · intro trpre tt trpost hsp hret hf1 hf2
            rcases List.append_eq_append_iff.mp hsp with
              ⟨a2, ha1, ha2⟩ | ⟨c2, hc1, hc2⟩
            · exact m5 a2 tt trpost ha2 hret hf1 hf2
            · cases c2 with
              | nil =>
                simp only [List.nil_append] at hc2
                exact m5 [] tt trpost hc2.symm hret hf1 hf2
              | cons x c3 =>
                simp only [List.cons_append, List.cons.injEq] at hc2
                obtain ⟨rfl, -⟩ := hc2
                have := (g6 trpre tt c3 hc1 hret hf1 hf2).1
                exact absurd this (by simp)

/-- `hwc_display_apply` is a function of the cleared display alone: two
displays with the same clear-phase result behave identically. -/
theorem hwc_display_apply_congr {d1 d2 : Display} (req : List AtomicEntry)
    (drv : Driver) (h : clear_phase d1 = clear_phase d2) :
    hwc_display_apply d1 req drv = hwc_display_apply d2 req drv := by
  unfold hwc_display_apply
  rw [h]

/-- Master run lemma for a whole allocation pass: any completed pass
preserves consistency and the display shape, every pairing left behind
carries a successful recorded trial of this pass, and a fatal trial is
the last and forces a `false` return. -/
theorem apply_master {d : Display} {req : List AtomicEntry} {drv : Driver}
    {b : Bool} {d' : Display} {req' : List AtomicEntry} {tr : List Trial}
    (hC : Consistent d) (hW : WF d)
    (h : hwc_display_apply d req drv = some (b, d', req', tr)) :
    Consistent d' ∧ displayShape d' = displayShape d ∧
    (∀ pj lj, planeLayerAt d' pj = some lj →
        ∃ tt ∈ tr, tt.ret = 0 ∧ tt.plane = pj ∧ tt.layer = lj) ∧
    (∀ lj pj, layerPlaneAt d' lj = some pj →
        ∃ tt ∈ tr, tt.ret = 0 ∧ tt.plane = pj ∧ tt.layer = lj) ∧
    (∀ trpre tt trpost, tr = trpre ++ tt :: trpost →
        tt.ret ≠ 0 → -tt.ret ≠ EINVAL → -tt.ret ≠ ERANGE → b = false ∧ trpost = []) := by
  have hd1C : Consistent (clear_phase d) := clear_phase_consistent hC
  have hshape1 := clear_phase_shape d
  cases hdis : disable_planes (clear_phase d)
      (List.range (clear_phase d).planes.length) req with
  | none =>
    simp only [hwc_display_apply, hdis] at h
    exact Option.noConfusion h
  | some dres =>
    obtain ⟨db, r1⟩ := dres
    cases db with
    | false =>
      simp only [hwc_display_apply, hdis, Option.some.injEq, Prod.mk.injEq] at h
      obtain ⟨rfl, rfl, rfl, rfl⟩ := h
      refine ⟨hd1C, hshape1, ?_, ?_, ?_⟩
      · intro pj lj hx
        rw [clear_phase_planes_unpaired d pj] at hx
        exact Option.noConfusion hx
      · intro lj pj hx
        rw [clear_phase_layers_unpaired hC lj] at hx
        exact Option.noConfusion hx
      · intro trpre tt trpost hsp
        exact absurd hsp (by simp)
    | true =>
      simp only [hwc_display_apply, hdis] at h
      obtain ⟨m1, m2, m3, m4, m5⟩ :=
        match_outputs_master drv (clear_phase d).outputs (clear_phase d) r1
          b d' req' tr h
      have houts : (clear_phase d).outputs = d.outputs := shape_outputs hshape1
      refine ⟨?_, m1.trans hshape1, ?_, ?_, m5⟩
      · apply m4
        · intro o ho li hli
          rw [shape_layers_length hshape1]
          exact hW.1 o (houts ▸ ho) li hli
        · rw [houts]
          exact hW.2
        · intro o ho li hli
          exact clear_phase_layers_unpaired hC li
        · exact hd1C
      · intro pj lj hx
        rcases m2 pj lj hx with hmid | hres
        · rw [clear_phase_planes_unpaired d pj] at hmid
          exact Option.noConfusion hmid
        · exact hres
      · intro lj pj hx
        rcases m3 lj pj hx with hmid | hres
        · rw [clear_phase_layers_unpaired hC lj] at hmid
          exact Option.noConfusion hmid
        · exact hres

/-- A fatal test verdict is the last trial of a pass and forces a `false`
return (no consistency assumptions needed). -/
theorem apply_fatal_last {d : Display} {req : List AtomicEntry} {drv : Driver}
    {b : Bool} {d' : Display} {req' : List AtomicEntry} {tr : List Trial}
    (h : hwc_display_apply d req drv = some (b, d', req', tr)) :
    ∀ trpre tt trpost, tr = trpre ++ tt :: trpost →
      tt.ret ≠ 0 → -tt.ret ≠ EINVAL → -tt.ret ≠ ERANGE → b = false ∧ trpost = [] := by
  cases hdis : disable_planes (clear_phase d)
      (List.range (clear_phase d).planes.length) req with
  | none =>
    simp only [hwc_display_apply, hdis] at h
    exact Option.noConfusion h
  | some dres =>
    obtain ⟨db, r1⟩ := dres
    cases db with
    | false =>
      simp only [hwc_display_apply, hdis, Option.some.injEq, Prod.mk.injEq] at h
      obtain ⟨rfl, rfl, rfl, rfl⟩ := h
      intro trpre tt trpost hsp
      exact absurd hsp (by simp)
    | true =>
      simp only [hwc_display_apply, hdis] at h
      exact (match_outputs_master drv (clear_phase d).outputs (clear_phase d) r1
        b d' req' tr h).2.2.2.2

/-- Planes-lists with equal shapes have pointwise equal property tables. -/
theorem getD_props_of_shape {l1 l2 : List Plane}
    (h : l1.map planeShape = l2.map planeShape) (i : Nat) :
    (l1.getD i default).props = (l2.getD i default).props := by
  have hlen : l1.length = l2.length := by
    have := congrArg List.length h
    simpa using this
  rcases Nat.lt_or_ge i l1.length with hlt | hge
  · have hlt2 : i < l2.length := hlen ▸ hlt
    have h1 : i < (l1.map planeShape).length := by simpa using hlt
    have h2 : i < (l2.map planeShape).length := by simpa using hlt2
    have := congrArg (fun z => z[i]?) h
    dsimp only at this
    rw [List.getElem?_eq_getElem h1, List.getElem?_eq_getElem h2] at this
    simp only [List.getElem_map, Option.some.injEq] at this
    rw [List.getD_eq_getElem _ _ hlt, List.getD_eq_getElem _ _ hlt2]
    have := congrArg (fun z => z.2.2) this
    simpa [planeShape] using this
  · rw [List.getD_eq_default _ _ hge, List.getD_eq_default _ _ (hlen ▸ hge)]

/-- Layer-lists with equal shapes have pointwise equal desired sets. -/
theorem getD_layer_props_of_shape {l1 l2 : List Layer}
    (h : l1.map layerShape = l2.map layerShape) (i : Nat) :
    (l1.getD i default).props = (l2.getD i default).props := by
  have hlen : l1.length = l2.length := by
    have := congrArg List.length h
    simpa using this
  rcases Nat.lt_or_ge i l1.length with hlt | hge
  · have hlt2 : i < l2.length := hlen ▸ hlt
    have h1 : i < (l1.map layerShape).length := by simpa using hlt
    have h2 : i < (l2.map layerShape).length := by simpa using hlt2
    have := congrArg (fun z => z[i]?) h
    dsimp only at this
    rw [List.getElem?_eq_getElem h1, List.getElem?_eq_getElem h2] at this
    simp only [List.getElem_map, Option.some.injEq] at this
    rw [List.getD_eq_getElem _ _ hlt, List.getD_eq_getElem _ _ hlt2]
    have := congrArg (fun z => z.2) this
    simpa [layerShape] using this
  · rw [List.getD_eq_default _ _ hge, List.getD_eq_default _ _ (hlen ▸ hge)]

/-- `plane_get_property` depends only on the property table. -/
theorem plane_get_property_congr {p1 p2 : Plane} (h : p1.props = p2.props)
    (name : String) : plane_get_property p1 name = plane_get_property p2 name := by
  unfold plane_get_property
  rw [h]

/-- Every plane of a shape-equal list matches some plane of the other list
in everything but the pairing reference. -/
theorem mem_planes_shape {l1 l2 : List Plane}
    (h : l1.map planeShape = l2.map planeShape) :
    ∀ p ∈ l1, ∃ p2 ∈ l2, planeShape p = planeShape p2 := by
  induction l1 generalizing l2 with
  | nil => intro p hp; cases hp
  | cons a t ih =>
    cases l2 with
    | nil => exact absurd h (by simp)
    | cons b t2 =>
      simp only [List.map, List.cons.injEq] at h
      intro p hp
      rcases List.mem_cons.mp hp with rfl | hmem
      · exact ⟨b, by simp, h.1⟩
      · obtain ⟨p2, hp2, hsh⟩ := ih h.2 p hmem
        exact ⟨p2, by simp [hp2], hsh⟩

/-- Splitting `range n` at an interior point `k`. -/
theorem range_split {k n : Nat} (h : k < n) :
    List.range n =
      List.range k ++ k :: List.map (fun x => k + 1 + x) (List.range (n - k - 1)) := by
  have hn : n = k + 1 + (n - k - 1) := by omega
  conv_lhs => rw [hn]
  rw [List.range_add, List.range_add]
  have : List.range 1 = [0] := rfl
  rw [this]
  simp [List.append_assoc]

/-- With a driver that rejects everything as structurally infeasible and
property tables that always resolve, `layer_choose_plane` leaves the
display and the request untouched and still returns `true`. -/
theorem layer_choose_reject_all (drv : Driver) (d : Display) (li : Nat)
    (req : List AtomicEntry)
    (hCR : ∀ p ∈ d.planes, (plane_get_property p "CRTC_ID").isSome)
    (hnames : ∀ p ∈ d.planes, ∀ l ∈ d.layers, ∀ lp ∈ l.props,
      (plane_get_property p lp.name).isSome)
    (hdrv : ∀ r, drv r ≠ 0 ∧ (-(drv r) = EINVAL ∨ -(drv r) = ERANGE)) :
    ∃ tr, layer_choose_plane drv d li req = some (true, d, req, tr) := by
  rw [layer_choose_plane_eq]
  apply layer_try_all_fail drv d li _ _ req req.length rfl
  intro pi hpi hup
  have hpilt : pi < d.planes.length := List.mem_range.mp hpi
  have hCRi : (plane_get_property (d.planes.getD pi default) "CRTC_ID").isSome :=
    forall_mem_getD hCR hpilt
  have hnamesi : ∀ lp ∈ (d.layers.getD li default).props,
      (plane_get_property (d.planes.getD pi default) lp.name).isSome := by
    rcases Nat.lt_or_ge li d.layers.length with hlt | hge
    · rw [List.getD_eq_getElem _ _ hlt]
      exact forall_mem_getD hnames hpilt _ (List.getElem_mem hlt)
    · rw [List.getD_eq_default _ _ hge]
      intro lp hlp
      cases hlp
  exact ⟨_, plane_apply_enable d.outputs _ _ req hCRi hnamesi,
    (hdrv _).1, (hdrv _).2⟩

/-- Lifting `layer_choose_reject_all` over one output's layer list. -/
theorem match_layers_reject_all (drv : Driver) (d : Display)
    (hCR : ∀ p ∈ d.planes, (plane_get_property p "CRTC_ID").isSome)
    (hnames : ∀ p ∈ d.planes, ∀ l ∈ d.layers, ∀ lp ∈ l.props,
      (plane_get_property p lp.name).isSome)
    (hdrv : ∀ r, drv r ≠ 0 ∧ (-(drv r) = EINVAL ∨ -(drv r) = ERANGE))
    (lis : List Nat) : ∀ req,
    ∃ tr, match_layers drv d lis req = some (true, d, req, tr) := by
  induction lis with
  | nil => intro req; exact ⟨[], by simp [match_layers]⟩
  | cons li rest ih =>
    intro req
    obtain ⟨t1, h1⟩ := layer_choose_reject_all drv d li req hCR hnames hdrv
    obtain ⟨tr, htr⟩ := ih req
    refine ⟨t1 ++ tr, ?_⟩
    simp only [match_layers, h1, htr, Option.map, Option.some.injEq]

/-- Lifting `layer_choose_reject_all` over the whole match phase. -/
theorem match_outputs_reject_all (drv : Driver) (d : Display)
    (hCR : ∀ p ∈ d.planes, (plane_get_property p "CRTC_ID").isSome)
    (hnames : ∀ p ∈ d.planes, ∀ l ∈ d.layers, ∀ lp ∈ l.props,
      (plane_get_property p lp.name).isSome)
    (hdrv : ∀ r, drv r ≠ 0 ∧ (-(drv r) = EINVAL ∨ -(drv r) = ERANGE))
    (outs : List Output) : ∀ req,
    ∃ tr, match_outputs drv d outs req = some (true, d, req, tr) := by
  induction outs with
  | nil => intro req; exact ⟨[], by simp [match_outputs]⟩
  | cons o rest ih =>
    intro req
    obtain ⟨t1, h1⟩ := match_layers_reject_all drv d hCR hnames hdrv o.layers req
    obtain ⟨tr, htr⟩ := ih req
    refine ⟨t1 ++ tr, ?_⟩
    simp only [match_outputs, h1, htr, Option.map, Option.some.injEq]

theorem shape_planes_map {d1 d2 : Display}
    (h : displayShape d1 = displayShape d2) :
    d1.planes.map planeShape = d2.planes.map planeShape := by
  have := congrArg (fun z => z.1) h
  simpa [displayShape] using this

theorem shape_layers_map {d1 d2 : Display}
    (h : displayShape d1 = displayShape d2) :
    d1.layers.map layerShape = d2.layers.map layerShape := by
  have := congrArg (fun z => z.2.2) h
  simpa [displayShape] using this

theorem props_of_planeShape {p1 p2 : Plane} (h : planeShape p1 = planeShape p2) :
    p1.props = p2.props := by
  have := congrArg (fun z => z.2.2) h
  simpa [planeShape] using this

/-! ## The claims -/

/-- C7: the enable mode of the property application engine appends, in
exactly this order, first the `CRTC_ID` write carrying the owning
output's CRTC id, then one write per (name, value) pair of the layer's
desired set in list order; it returns only the extended request — its
type takes no driver handle and no mutable state, so it issues no commit
and mutates nothing but the request. -/
theorem c7_enable_order (outputs : List Output) (plane : Plane) (layer : Layer)
    (req : List AtomicEntry)
    (hc : (plane_get_property plane "CRTC_ID").isSome)
    (h : ∀ lp ∈ layer.props, (plane_get_property plane lp.name).isSome) :
    plane_apply outputs plane (some layer) req =
      some (true, req ++
        (⟨plane.id, ((plane_get_property plane "CRTC_ID").getD default).id,
          (outputs.getD layer.output default).crtc_id⟩ : AtomicEntry) ::
        layer.props.map (fun lp =>
          ⟨plane.id, ((plane_get_property plane lp.name).getD default).id,
            lp.value⟩)) := by
  rw [plane_apply_enable outputs plane layer req hc h, enable_writes]

/-- Witness for C7: concrete plane 10 enabling the concrete layer wanting
`FB_ID = 100` on the output with CRTC 5. -/
theorem c7_witness :
    (plane_get_property exPlane0 "CRTC_ID").isSome ∧
    (∀ lp ∈ exLayerA.props, (plane_get_property exPlane0 lp.name).isSome) ∧
    plane_apply exDisplay.outputs exPlane0 (some exLayerA) [] =
      some (true, [⟨10, 2, 5⟩, ⟨10, 1, 100⟩]) := by
  refine ⟨by decide, by decide, ?_⟩
  rw [c7_enable_order exDisplay.outputs exPlane0 exLayerA [] (by decide) (by decide)]
  rfl

/-- C4: after any successful `hwc_display_apply` on a well-formed,
consistent display, the pairing references are mutually consistent —
every paired plane's layer points back at it and symmetrically — and
consequently no plane is paired with more than one layer and no layer
with more than one plane. -/
theorem c4_pairing_consistency (d : Display) (req : List AtomicEntry)
    (drv : Driver) (d' : Display) (req' : List AtomicEntry) (tr : List Trial)
    (hC : Consistent d) (hW : WF d)
    (h : hwc_display_apply d req drv = some (true, d', req', tr)) :
    Consistent d' ∧
    (∀ pi pj li, planeLayerAt d' pi = some li → planeLayerAt d' pj = some li →
      pi = pj) ∧
    (∀ li lj pi, layerPlaneAt d' li = some pi → layerPlaneAt d' lj = some pi →
      li = lj) := by
  obtain ⟨h1, -, -, -, -⟩ := apply_master hC hW h
  refine ⟨h1, ?_, ?_⟩
  · intro pi pj li hpi hpj
    have b1 := (planeOkAt_elim (h1.1 pi (lt_of_planeLayerAt_some hpi)) hpi).2
    have b2 := (planeOkAt_elim (h1.1 pj (lt_of_planeLayerAt_some hpj)) hpj).2
    rw [b1] at b2
    exact Option.some.inj b2
  · intro li lj pi hli hlj
    have b1 := (layerOkAt_elim (h1.2 li (lt_of_layerPlaneAt_some hli)) hli).2
    have b2 := (layerOkAt_elim (h1.2 lj (lt_of_layerPlaneAt_some hlj)) hlj).2
    rw [b1] at b2
    exact Option.some.inj b2

/-- Witness for C4: the accept-all pass on the concrete display. -/
theorem c4_witness :
    Consistent exDisplay ∧ WF exDisplay ∧
    hwc_display_apply exDisplay [] drvAccept =
      some (true, exDisplayPairedAB, exReqAccept, exTraceAccept) ∧
    (Consistent exDisplayPairedAB ∧
      (∀ pi pj li, planeLayerAt exDisplayPairedAB pi = some li →
        planeLayerAt exDisplayPairedAB pj = some li → pi = pj) ∧
      (∀ li lj pi, layerPlaneAt exDisplayPairedAB li = some pi →
        layerPlaneAt exDisplayPairedAB lj = some pi → li = lj)) :=
  ⟨by decide, by decide, by rfl,
    c4_pairing_consistency exDisplay [] drvAccept exDisplayPairedAB exReqAccept
      exTraceAccept (by decide) (by decide) (by rfl)⟩

/-- C9: running `hwc_display_apply` a second time on the display a
successful pass produced, with the same request contents and the same
driver, reproduces the identical result — in particular the identical
plane/layer pairing. -/
theorem c9_idempotent (d : Display) (req : List AtomicEntry) (drv : Driver)
    (d1 : Display) (r1 : List AtomicEntry) (t1 : List Trial)
    (hC : Consistent d) (hW : WF d)
    (h : hwc_display_apply d req drv = some (true, d1, r1, t1)) :
    hwc_display_apply d1 req drv = some (true, d1, r1, t1) := by
  obtain ⟨hC1, hsh, -, -, -⟩ := apply_master hC hW h
  have hclear : clear_phase d1 = clear_phase d := by
    apply eq_of_shape_allUnpaired
    · rw [clear_phase_shape, clear_phase_shape]
      exact hsh
    · exact clear_phase_allUnpaired hC1
    · exact clear_phase_allUnpaired hC
  rw [hwc_display_apply_congr req drv hclear]
  exact h

/-- Witness for C9: the accept-all pass on the concrete display, run
again from its own result. -/
theorem c9_witness :
    Consistent exDisplay ∧ WF exDisplay ∧
    hwc_display_apply exDisplay [] drvAccept =
      some (true, exDisplayPairedAB, exReqAccept, exTraceAccept) ∧
    hwc_display_apply exDisplayPairedAB [] drvAccept =
      some (true, exDisplayPairedAB, exReqAccept, exTraceAccept) :=
  ⟨by decide, by decide, by rfl,
    c9_idempotent exDisplay [] drvAccept exDisplayPairedAB exReqAccept exTraceAccept
      (by decide) (by decide) (by rfl)⟩

/-- C10: the clear phase removes every pre-existing pairing before the
first fallible operation of the pass, so when `hwc_display_apply` returns
failure the only pairings that can remain are ones established by a
successful recorded trial within the same failed pass. -/
theorem c10_failed_pass_pairings (d : Display) (req : List AtomicEntry)
    (drv : Driver) (d' : Display) (req' : List AtomicEntry) (tr : List Trial)
    (hC : Consistent d) (hW : WF d)
    (h : hwc_display_apply d req drv = some (false, d', req', tr)) :
    (∀ pi, planeLayerAt (clear_phase d) pi = none) ∧
    (∀ li, layerPlaneAt (clear_phase d) li = none) ∧
    (∀ pj lj, planeLayerAt d' pj = some lj →
        ∃ tt ∈ tr, tt.ret = 0 ∧ tt.plane = pj ∧ tt.layer = lj) ∧
    (∀ lj pj, layerPlaneAt d' lj = some pj →
        ∃ tt ∈ tr, tt.ret = 0 ∧ tt.plane = pj ∧ tt.layer = lj) := by
  obtain ⟨-, -, h3, h4, -⟩ := apply_master hC hW h
  exact ⟨clear_phase_planes_unpaired d, clear_phase_layers_unpaired hC, h3, h4⟩

/-- Witness for C10: the fatal-driver pass on the concrete display. -/
theorem c10_witness :
    Consistent exDisplay ∧ WF exDisplay ∧
    hwc_display_apply exDisplay [] drvFatal =
      some (false, exDisplay, exReqFatal, exTraceFatal) ∧
    ((∀ pi, planeLayerAt (clear_phase exDisplay) pi = none) ∧
     (∀ li, layerPlaneAt (clear_phase exDisplay) li = none) ∧
     (∀ pj lj, planeLayerAt exDisplay pj = some lj →
        ∃ tt ∈ exTraceFatal, tt.ret = 0 ∧ tt.plane = pj ∧ tt.layer = lj) ∧
     (∀ lj pj, layerPlaneAt exDisplay lj = some pj →
        ∃ tt ∈ exTraceFatal, tt.ret = 0 ∧ tt.plane = pj ∧ tt.layer = lj)) :=
  ⟨by decide, by decide, by rfl,
    c10_failed_pass_pairings exDisplay [] drvFatal exDisplay exReqFatal exTraceFatal
      (by decide) (by decide) (by rfl)⟩

/-- C3: exactly this case analysis handles every test-only evaluation of
a candidate plane during the match phase.  Success pairs the plane and
layer and stops trying planes for that layer; a rejection with the
invalid-argument or out-of-range code rolls the request back to the
cursor recorded before the candidate's writes — restoring its exact
pre-candidate content — and continues with the remaining planes; any
other rejection code is fatal: the loop returns `false` with that trial,
and in any completed pass a trial carrying such a code is the last trial
(no further plane trials for any layer) and the pass returns failure. -/
theorem c3_test_outcome_cases (drv : Driver) (d : Display) (li : Nat)
    (layer : Layer) (cursor : Nat) (pi : Nat) (rest : List Nat)
    (req req' : List AtomicEntry) (d0 : Display) (req0 : List AtomicEntry)
    (b : Bool) (d' : Display) (r' : List AtomicEntry)
    (tr trpre trpost : List Trial) (tt : Trial)
    (hup : planeLayerAt d pi = none)
    (ha : plane_apply d.outputs (d.planes.getD pi default) (some layer) req =
      some (true, req'))
    (hcur : cursor = req.length)
    (hrun : hwc_display_apply d0 req0 drv = some (b, d', r', tr))
    (hsp : tr = trpre ++ tt :: trpost)
    (hfr : tt.ret ≠ 0) (hf1 : -tt.ret ≠ EINVAL) (hf2 : -tt.ret ≠ ERANGE) :
    (drv req' = 0 →
      layer_try_planes drv d li layer cursor (pi :: rest) req =
        some (true, pairPlaneLayer d pi li, req', [⟨pi, li, req', 0⟩])) ∧
    (drv req' ≠ 0 → (-(drv req') = EINVAL ∨ -(drv req') = ERANGE) →
      req'.take cursor = req ∧
      layer_try_planes drv d li layer cursor (pi :: rest) req =
        (layer_try_planes drv d li layer cursor rest req).map
          (fun r => (r.1, r.2.1, r.2.2.1,
            (⟨pi, li, req', drv req'⟩ : Trial) :: r.2.2.2))) ∧
    (drv req' ≠ 0 → -(drv req') ≠ EINVAL → -(drv req') ≠ ERANGE →
      layer_try_planes drv d li layer cursor (pi :: rest) req =
        some (false, d, req', [⟨pi, li, req', drv req'⟩])) ∧
    (b = false ∧ trpost = []) := by
  refine ⟨?_, ?_, ?_, ?_⟩
  · intro h0
    exact layer_try_success drv li layer cursor rest req hup ha h0
  · intro h0 hinf
    have htake := rollback_take hcur (plane_apply_extends ha)
    refine ⟨htake, ?_⟩
    rw [layer_try_rollback drv li layer cursor rest req hup ha h0 hinf, htake]
  · intro h0 hinv hrng
    exact layer_try_fatal drv li layer cursor rest req hup ha h0 ⟨hinv, hrng⟩
  · exact apply_fatal_last hrun trpre tt trpost hsp hfr hf1 hf2

/-- Witness for C3: the concrete display under the fatal driver; the
candidate step is plane 0 trying layer 0 and the fatal trial of the run
is its only trial. -/
theorem c3_witness :
    planeLayerAt exDisplay 0 = none ∧
    plane_apply exDisplay.outputs (exDisplay.planes.getD 0 default)
      (some exLayerA) [] = some (true, [⟨10, 2, 5⟩, ⟨10, 1, 100⟩]) ∧
    hwc_display_apply exDisplay [] drvFatal =
      some (false, exDisplay, exReqFatal, exTraceFatal) ∧
    exTraceFatal = [] ++ (⟨0, 0, exReqFatal, -5⟩ : Trial) :: [] ∧
    ((drvFatal [⟨10, 2, 5⟩, ⟨10, 1, 100⟩] = 0 →
      layer_try_planes drvFatal exDisplay 0 exLayerA 0 [0, 1] [] =
        some (true, pairPlaneLayer exDisplay 0 0, [⟨10, 2, 5⟩, ⟨10, 1, 100⟩],
          [⟨0, 0, [⟨10, 2, 5⟩, ⟨10, 1, 100⟩], 0⟩])) ∧
    (drvFatal [⟨10, 2, 5⟩, ⟨10, 1, 100⟩] ≠ 0 →
      (-(drvFatal [⟨10, 2, 5⟩, ⟨10, 1, 100⟩]) = EINVAL ∨
        -(drvFatal [⟨10, 2, 5⟩, ⟨10, 1, 100⟩]) = ERANGE) →
      ([⟨10, 2, 5⟩, ⟨10, 1, 100⟩] : List AtomicEntry).take 0 = [] ∧
      layer_try_planes drvFatal exDisplay 0 exLayerA 0 [0, 1] [] =
        (layer_try_planes drvFatal exDisplay 0 exLayerA 0 [1] []).map
          (fun r => (r.1, r.2.1, r.2.2.1,
            (⟨0, 0, [⟨10, 2, 5⟩, ⟨10, 1, 100⟩],
              drvFatal [⟨10, 2, 5⟩, ⟨10, 1, 100⟩]⟩ : Trial) :: r.2.2.2))) ∧
    (drvFatal [⟨10, 2, 5⟩, ⟨10, 1, 100⟩] ≠ 0 →
      -(drvFatal [⟨10, 2, 5⟩, ⟨10, 1, 100⟩]) ≠ EINVAL →
      -(drvFatal [⟨10, 2, 5⟩, ⟨10, 1, 100⟩]) ≠ ERANGE →
      layer_try_planes drvFatal exDisplay 0 exLayerA 0 [0, 1] [] =
        some (false, exDisplay, [⟨10, 2, 5⟩, ⟨10, 1, 100⟩],
          [⟨0, 0, [⟨10, 2, 5⟩, ⟨10, 1, 100⟩],
            drvFatal [⟨10, 2, 5⟩, ⟨10, 1, 100⟩]⟩])) ∧
    (false = false ∧ ([] : List Trial) = [])) :=
  ⟨by decide, by rfl, by rfl, by rfl,
    c3_test_outcome_cases drvFatal exDisplay 0 exLayerA 0 0 [1] []
      [⟨10, 2, 5⟩, ⟨10, 1, 100⟩] exDisplay [] false exDisplay exReqFatal
      exTraceFatal [] [] ⟨0, 0, exReqFatal, -5⟩
      (by decide) (by rfl) (by rfl) (by rfl) (by rfl)
      (by decide) (by decide) (by decide)⟩

/-- C2: `hwc_display_create` unwinds through `hwc_display_destroy` when
`dup` fails, but at that point `hwc_list_init(&display->planes)` has not
yet run — the calloc-zeroed list head is iterated, which is undefined
behaviour, for every driver-oracle behaviour. -/
theorem c2_create_unwind_ub (planeRes : Option (List Nat))
    (getPlane : Nat → Option (Nat × Nat))
    (getProps : Nat → Option (List PlaneProp)) :
    hwc_display_create (-1) planeRes getPlane getProps = CreateResult.ub := rfl

/-- Counterexample to C1 as stated: on a display whose only layer asks
for property name `foo`, absent from the (only) plane's table, the
candidate is not merely abandoned — `hwc_display_apply` returns failure
(even though the driver would accept everything), with no test commit
ever issued. -/
theorem c1_counterexample :
    plane_get_property exPlane0 "foo" = none ∧
    (exDisplayFoo.layers.getD 0 default).props = [⟨"foo", 7⟩] ∧
    hwc_display_apply exDisplayFoo [] drvAccept =
      some (false, exDisplayFoo, [⟨10, 1, 0⟩, ⟨10, 2, 5⟩], []) :=
  ⟨rfl, rfl, rfl⟩

/-- C1 amended: when the enable operation for a candidate fails because a
name of the layer's desired set is not found in the plane's table, the
failure is fatal to the whole pass — `layer_choose_plane` returns `false`
without trying the next plane and `hwc_display_apply` returns failure
(its trial trace empty: no test commit was issued).  Stated for the first
plane as candidate for the first layer of the first output. -/
theorem c1_missing_name_fatal (d : Display) (req : List AtomicEntry)
    (drv : Driver) (o : Output) (outs : List Output) (li : Nat) (lis : List Nat)
    (hFB : ∀ p ∈ d.planes, (plane_get_property p "FB_ID").isSome)
    (houts : d.outputs = o :: outs)
    (hlayers : o.layers = li :: lis)
    (hplanes : d.planes ≠ [])
    (hCR : (plane_get_property (d.planes.getD 0 default) "CRTC_ID").isSome)
    (hmiss : ∃ lp ∈ (d.layers.getD li default).props,
      plane_get_property (d.planes.getD 0 default) lp.name = none) :
    ∃ req'', hwc_display_apply d req drv =
      some (false, clear_phase d, req'', []) := by
  have hshape := clear_phase_shape d
  have hpmap := shape_planes_map hshape
  have hlmap := shape_layers_map hshape
  have hFB1 : ∀ pi2 ∈ List.range (clear_phase d).planes.length,
      (plane_get_property ((clear_phase d).planes.getD pi2 default)
        "FB_ID").isSome := by
    intro pi2 hpi2
    rw [plane_get_property_congr (getD_props_of_shape hpmap pi2)]
    have hlt : pi2 < (clear_phase d).planes.length := List.mem_range.mp hpi2
    rw [shape_planes_length hshape] at hlt
    exact forall_mem_getD hFB hlt
  have hdis := disable_planes_spec (clear_phase d)
    (List.range (clear_phase d).planes.length) req hFB1
    (fun pi2 _ => clear_phase_planes_unpaired d pi2)
  set r1 := req ++ (List.range (clear_phase d).planes.length).map
    (fun pi2 => disableEntry ((clear_phase d).planes.getD pi2 default)) with hr1
  have hCR1 : (plane_get_property ((clear_phase d).planes.getD 0 default)
      "CRTC_ID").isSome := by
    rw [plane_get_property_congr (getD_props_of_shape hpmap 0)]
    exact hCR
  have hmiss1 : ∃ lp ∈ ((clear_phase d).layers.getD li default).props,
      plane_get_property ((clear_phase d).planes.getD 0 default) lp.name = none := by
    rw [getD_layer_props_of_shape hlmap li]
    obtain ⟨lp, hlp, hn⟩ := hmiss
    refine ⟨lp, hlp, ?_⟩
    rw [plane_get_property_congr (getD_props_of_shape hpmap 0)]
    exact hn
  obtain ⟨rq, hfail⟩ := plane_apply_enable_fails (clear_phase d).outputs
    ((clear_phase d).planes.getD 0 default)
    ((clear_phase d).layers.getD li default) r1 hCR1 hmiss1
  have hlen0 : 0 < (clear_phase d).planes.length := by
    rw [shape_planes_length hshape]
    cases hp : d.planes with
    | nil => exact absurd hp hplanes
    | cons a t => simp [hp]
  have hrange : List.range (clear_phase d).planes.length =
      0 :: List.map (fun x => 0 + 1 + x)
        (List.range ((clear_phase d).planes.length - 0 - 1)) := by
    have := range_split hlen0
    simpa using this
  have hlc : layer_choose_plane drv (clear_phase d) li r1 =
      some (false, clear_phase d, rq, []) := by
    rw [layer_choose_plane_eq, hrange]
    exact layer_try_applyfail drv li _ _ _ _
      (clear_phase_planes_unpaired d 0) hfail
  have houts1 : (clear_phase d).outputs = o :: outs := by
    rw [shape_outputs hshape]
    exact houts
  refine ⟨rq, ?_⟩
  simp only [hwc_display_apply, hdis, houts1, match_outputs, hlayers,
    match_layers, hlc]

/-- Witness for C1's amended statement, at the concrete display whose
layer wants the unknown name `foo`. -/
theorem c1_witness :
    (∀ p ∈ exDisplayFoo.planes, (plane_get_property p "FB_ID").isSome) ∧
    exDisplayFoo.outputs = (⟨5, [0]⟩ : Output) :: [] ∧
    (⟨5, [0]⟩ : Output).layers = 0 :: [] ∧
    exDisplayFoo.planes ≠ [] ∧
    (plane_get_property (exDisplayFoo.planes.getD 0 default) "CRTC_ID").isSome ∧
    (∃ lp ∈ (exDisplayFoo.layers.getD 0 default).props,
      plane_get_property (exDisplayFoo.planes.getD 0 default) lp.name = none) ∧
    (∃ req'', hwc_display_apply exDisplayFoo [] drvAccept =
      some (false, clear_phase exDisplayFoo, req'', [])) :=
  ⟨by decide, by rfl, by rfl, by decide, by decide, by decide,
    c1_missing_name_fatal exDisplayFoo [] drvAccept ⟨5, [0]⟩ [] 0 []
      (by decide) (by rfl) (by rfl) (by decide) (by decide) (by decide)⟩

theorem props_of_layerShape {a b : Layer} (h : layerShape a = layerShape b) :
    a.props = b.props := by
  have := congrArg (fun z => z.2) h
  simpa [layerShape] using this

theorem mem_layers_shape {l1 l2 : List Layer}
    (h : l1.map layerShape = l2.map layerShape) :
    ∀ l ∈ l1, ∃ lx ∈ l2, layerShape l = layerShape lx := by
  induction l1 generalizing l2 with
  | nil => intro l hl; cases hl
  | cons a t ih =>
    cases l2 with
    | nil => exact absurd h (by simp)
    | cons b t2 =>
      simp only [List.map, List.cons.injEq] at h
      intro l hl
      rcases List.mem_cons.mp hl with rfl | hmem
      · exact ⟨b, by simp, h.1⟩
      · obtain ⟨lx, hlx, hsh⟩ := ih h.2 l hmem
        exact ⟨lx, by simp [hlx], hsh⟩

/-- C8: when no plane's test-only evaluation succeeds for any layer —
every candidate is rejected with one of the two structurally-infeasible
codes — the pass still returns success: the display stays exactly the
cleared display, with every plane and every layer unpaired. -/
theorem c8_unmatched_layers_not_an_error (d : Display) (req : List AtomicEntry)
    (drv : Driver)
    (hC : Consistent d)
    (hFB : ∀ p ∈ d.planes, (plane_get_property p "FB_ID").isSome)
    (hCR : ∀ p ∈ d.planes, (plane_get_property p "CRTC_ID").isSome)
    (hnames : ∀ p ∈ d.planes, ∀ l ∈ d.layers, ∀ lp ∈ l.props,
      (plane_get_property p lp.name).isSome)
    (hdrv : ∀ r, drv r ≠ 0 ∧ (-(drv r) = EINVAL ∨ -(drv r) = ERANGE)) :
    ∃ req' tr,
      hwc_display_apply d req drv = some (true, clear_phase d, req', tr) ∧
      (∀ p ∈ (clear_phase d).planes, p.layer = none) ∧
      (∀ l ∈ (clear_phase d).layers, l.plane = none) := by
  have hshape := clear_phase_shape d
  have hpmap := shape_planes_map hshape
  have hlmap := shape_layers_map hshape
  have hFB1 : ∀ pi2 ∈ List.range (clear_phase d).planes.length,
      (plane_get_property ((clear_phase d).planes.getD pi2 default)
        "FB_ID").isSome := by
    intro pi2 hpi2
    rw [plane_get_property_congr (getD_props_of_shape hpmap pi2)]
    have hlt : pi2 < (clear_phase d).planes.length := List.mem_range.mp hpi2
    rw [shape_planes_length hshape] at hlt
    exact forall_mem_getD hFB hlt
  have hdis := disable_planes_spec (clear_phase d)
    (List.range (clear_phase d).planes.length) req hFB1
    (fun pi2 _ => clear_phase_planes_unpaired d pi2)
  set r1 := req ++ (List.range (clear_phase d).planes.length).map
    (fun pi2 => disableEntry ((clear_phase d).planes.getD pi2 default)) with hr1
  have hCR1 : ∀ p ∈ (clear_phase d).planes,
      (plane_get_property p "CRTC_ID").isSome := by
    intro p hp
    obtain ⟨p2, hp2, hsh⟩ := mem_planes_shape hpmap p hp
    rw [plane_get_property_congr (props_of_planeShape hsh)]
    exact hCR p2 hp2
  have hnames1 : ∀ p ∈ (clear_phase d).planes, ∀ l ∈ (clear_phase d).layers,
      ∀ lp ∈ l.props, (plane_get_property p lp.name).isSome := by
    intro p hp l hl lp hlp
    obtain ⟨p2, hp2, hshp⟩ := mem_planes_shape hpmap p hp
    obtain ⟨l2, hl2, hshl⟩ := mem_layers_shape hlmap l hl
    rw [plane_get_property_congr (props_of_planeShape hshp)]
    refine hnames p2 hp2 l2 hl2 lp ?_
    rw [← props_of_layerShape hshl]
    exact hlp
  obtain ⟨tr, hmatch⟩ := match_outputs_reject_all drv (clear_phase d)
    hCR1 hnames1 hdrv (clear_phase d).outputs r1
  refine ⟨r1, tr, ?_,
    planes_unpaired_mem (clear_phase_planes_unpaired d),
    layers_unpaired_mem (clear_phase_layers_unpaired hC)⟩
  simp only [hwc_display_apply, hdis, hmatch]

/-- Witness for C8: the reject-all driver on the concrete display. -/
theorem c8_witness :
    Consistent exDisplay ∧
    (∀ p ∈ exDisplay.planes, (plane_get_property p "FB_ID").isSome) ∧
    (∀ p ∈ exDisplay.planes, (plane_get_property p "CRTC_ID").isSome) ∧
    (∀ p ∈ exDisplay.planes, ∀ l ∈ exDisplay.layers, ∀ lp ∈ l.props,
      (plane_get_property p lp.name).isSome) ∧
    (∀ r, drvReject r ≠ 0 ∧ (-(drvReject r) = EINVAL ∨ -(drvReject r) = ERANGE)) ∧
    (∃ req' tr,
      hwc_display_apply exDisplay [] drvReject =
        some (true, clear_phase exDisplay, req', tr) ∧
      (∀ p ∈ (clear_phase exDisplay).planes, p.layer = none) ∧
      (∀ l ∈ (clear_phase exDisplay).layers, l.plane = none)) :=
  ⟨by decide, by decide, by decide, by decide,
    fun r => ⟨by norm_num [drvReject, EINVAL], Or.inl (by norm_num [drvReject, EINVAL])⟩,
    c8_unmatched_layers_not_an_error exDisplay [] drvReject (by decide)
      (by decide) (by decide) (by decide)
      (fun r => ⟨by norm_num [drvReject, EINVAL], Or.inl (by norm_num [drvReject, EINVAL])⟩)⟩

/-- C6: in every pass, after the clear phase every plane is unpaired, and
the disable phase — which precedes the match phase in
`hwc_display_apply`'s composition — appends exactly one `FB_ID = 0` write
per plane, in registry order. -/
theorem c6_disable_write_once (d : Display) (req : List AtomicEntry)
    (drv : Driver)
    (hFB : ∀ p ∈ d.planes, (plane_get_property p "FB_ID").isSome) :
    (∀ p ∈ (clear_phase d).planes, p.layer = none) ∧
    disable_planes (clear_phase d) (List.range (clear_phase d).planes.length)
      req = some (true, req ++ (clear_phase d).planes.map disableEntry) ∧
    hwc_display_apply d req drv =
      match_outputs drv (clear_phase d) (clear_phase d).outputs
        (req ++ (clear_phase d).planes.map disableEntry) := by
  have hshape := clear_phase_shape d
  have hpmap := shape_planes_map hshape
  have hFB1 : ∀ pi2 ∈ List.range (clear_phase d).planes.length,
      (plane_get_property ((clear_phase d).planes.getD pi2 default)
        "FB_ID").isSome := by
    intro pi2 hpi2
    rw [plane_get_property_congr (getD_props_of_shape hpmap pi2)]
    have hlt : pi2 < (clear_phase d).planes.length := List.mem_range.mp hpi2
    rw [shape_planes_length hshape] at hlt
    exact forall_mem_getD hFB hlt
  have hdis := disable_planes_spec (clear_phase d)
    (List.range (clear_phase d).planes.length) req hFB1
    (fun pi2 _ => clear_phase_planes_unpaired d pi2)
  rw [range_map_getD (clear_phase d).planes disableEntry] at hdis
  refine ⟨planes_unpaired_mem (clear_phase_planes_unpaired d), hdis, ?_⟩
  simp only [hwc_display_apply, hdis]

/-- Witness for C6 on the concrete display. -/
theorem c6_witness :
    (∀ p ∈ exDisplay.planes, (plane_get_property p "FB_ID").isSome) ∧
    ((∀ p ∈ (clear_phase exDisplay).planes, p.layer = none) ∧
     disable_planes (clear_phase exDisplay)
       (List.range (clear_phase exDisplay).planes.length) [] =
       some (true, [] ++ (clear_phase exDisplay).planes.map disableEntry) ∧
     hwc_display_apply exDisplay [] drvAccept =
       match_outputs drvAccept (clear_phase exDisplay)
         (clear_phase exDisplay).outputs
         ([] ++ (clear_phase exDisplay).planes.map disableEntry)) :=
  ⟨by decide, c6_disable_write_once exDisplay [] drvAccept (by decide)⟩

theorem drvLastObj11_append_pair (r : List AtomicEntry) (a b : AtomicEntry)
    (h : b.obj = 11) : drvLastObj11 (r ++ [a, b]) = 0 := by
  unfold drvLastObj11
  have hsp : r ++ [a, b] = (r ++ [a]) ++ [b] := by simp
  rw [hsp, List.getLast?_concat]
  simp [h]

theorem drvLastObj11_append_pair_ne (r : List AtomicEntry) (a b : AtomicEntry)
    (h : ¬b.obj = 11) : drvLastObj11 (r ++ [a, b]) = -EINVAL := by
  unfold drvLastObj11
  have hsp : r ++ [a, b] = (r ++ [a]) ++ [b] := by simp
  rw [hsp, List.getLast?_concat]
  simp [h]

/-- C5: layers are matched in output order and list order and a plane
paired earlier in the pass is skipped later: on an output listing L1
before L2, when exactly one plane (index `k`) passes the test — every
other plane is rejected as invalid for either layer — L1 ends up paired
with plane `k` and L2 stays unpaired. -/
theorem c5_priority_order (planes : List Plane) (k crtc : Nat)
    (L1props L2props : List LayerProp) (req : List AtomicEntry) (drv : Driver)
    (hk : k < planes.length)
    (hunp : ∀ p ∈ planes, p.layer = none)
    (hFB : ∀ p ∈ planes, (plane_get_property p "FB_ID").isSome)
    (hCR : ∀ p ∈ planes, (plane_get_property p "CRTC_ID").isSome)
    (hnames : ∀ p ∈ planes, ∀ lp ∈ L1props ++ L2props,
      (plane_get_property p lp.name).isSome)
    (hacc : ∀ (r : List AtomicEntry) (props : List LayerProp),
      props = L1props ∨ props = L2props →
      drv (r ++ enable_writes [⟨crtc, [0, 1]⟩] (planes.getD k default)
        ⟨0, props, none⟩) = 0)
    (hrej : ∀ (q : Nat) (r : List AtomicEntry) (props : List LayerProp),
      q < planes.length → q ≠ k → (props = L1props ∨ props = L2props) →
      drv (r ++ enable_writes [⟨crtc, [0, 1]⟩] (planes.getD q default)
        ⟨0, props, none⟩) = -EINVAL) :
    ∃ d' req' tr,
      hwc_display_apply
        (⟨planes, [⟨crtc, [0, 1]⟩],
          [⟨0, L1props, none⟩, ⟨0, L2props, none⟩]⟩ : Display) req drv =
        some (true, d', req', tr) ∧
      layerPlaneAt d' 0 = some k ∧
      layerPlaneAt d' 1 = none ∧
      planeLayerAt d' k = some 0 := by
  have hAU : AllUnpaired (⟨planes, [⟨crtc, [0, 1]⟩],
      [⟨0, L1props, none⟩, ⟨0, L2props, none⟩]⟩ : Display) := by
    refine ⟨hunp, ?_⟩
    intro l hl
    rcases List.mem_cons.mp hl with rfl | hl2
    · rfl
    · rcases List.mem_cons.mp hl2 with rfl | hl3
      · rfl
      · cases hl3
  have hclear := clear_phase_of_allUnpaired hAU
  have hFB1 : ∀ pi2 ∈ List.range planes.length,
      (plane_get_property (planes.getD pi2 default) "FB_ID").isSome :=
    fun pi2 hpi2 => forall_mem_getD hFB (List.mem_range.mp hpi2)
  have hdis := disable_planes_spec (⟨planes, [⟨crtc, [0, 1]⟩],
      [⟨0, L1props, none⟩, ⟨0, L2props, none⟩]⟩ : Display)
    (List.range planes.length) req hFB1
    (fun pi2 _ => planes_unpaired_at hunp pi2)
  set r1 := req ++ (List.range planes.length).map
    (fun pi2 => disableEntry (planes.getD pi2 default)) with hr1
  -- first layer: every plane before k is rejected, k succeeds
  have hall1 : ∀ q ∈ List.range k,
      planeLayerAt (⟨planes, [⟨crtc, [0, 1]⟩],
        [⟨0, L1props, none⟩, ⟨0, L2props, none⟩]⟩ : Display) q = none →
      ∃ rq, plane_apply [⟨crtc, [0, 1]⟩] (planes.getD q default)
          (some ⟨0, L1props, none⟩) r1 = some (true, rq) ∧
        drv rq ≠ 0 ∧ (-(drv rq) = EINVAL ∨ -(drv rq) = ERANGE) := by
    intro q hq _
    have hqk : q < k := List.mem_range.mp hq
    have hqlen : q < planes.length := Nat.lt_trans hqk hk
    have hCRq := forall_mem_getD hCR hqlen
    have hnamesq : ∀ lp ∈ L1props,
        (plane_get_property (planes.getD q default) lp.name).isSome :=
      fun lp hlp => forall_mem_getD hnames hqlen lp
        (List.mem_append.mpr (Or.inl hlp))
    have hdr := hrej q r1 L1props hqlen (Nat.ne_of_lt hqk) (Or.inl rfl)
    refine ⟨_, plane_apply_enable [⟨crtc, [0, 1]⟩] (planes.getD q default)
      ⟨0, L1props, none⟩ r1 hCRq hnamesq, ?_, ?_⟩
    · rw [hdr]
      norm_num [EINVAL]
    · refine Or.inl ?_
      rw [hdr]
      norm_num [EINVAL]
  have hCRk := forall_mem_getD hCR hk
  have hnamesk1 : ∀ lp ∈ L1props,
      (plane_get_property (planes.getD k default) lp.name).isSome :=
    fun lp hlp => forall_mem_getD hnames hk lp (List.mem_append.mpr (Or.inl hlp))
  have hak := plane_apply_enable [⟨crtc, [0, 1]⟩] (planes.getD k default)
    ⟨0, L1props, none⟩ r1 hCRk hnamesk1
  have hdk := hacc r1 L1props (Or.inl rfl)
  obtain ⟨tr1, htr1⟩ := layer_try_first_success drv
    (⟨planes, [⟨crtc, [0, 1]⟩],
      [⟨0, L1props, none⟩, ⟨0, L2props, none⟩]⟩ : Display) 0
    ⟨0, L1props, none⟩ (List.range k) r1 r1.length rfl hall1 k
    (List.map (fun x => k + 1 + x) (List.range (planes.length - k - 1)))
    (r1 ++ enable_writes [⟨crtc, [0, 1]⟩] (planes.getD k default)
      ⟨0, L1props, none⟩)
    (planes_unpaired_at hunp k) hak hdk
  have hlc1 : layer_choose_plane drv
      (⟨planes, [⟨crtc, [0, 1]⟩],
        [⟨0, L1props, none⟩, ⟨0, L2props, none⟩]⟩ : Display) 0 r1 =
      some (true, pairPlaneLayer
        (⟨planes, [⟨crtc, [0, 1]⟩],
          [⟨0, L1props, none⟩, ⟨0, L2props, none⟩]⟩ : Display) k 0,
        r1 ++ enable_writes [⟨crtc, [0, 1]⟩] (planes.getD k default)
          ⟨0, L1props, none⟩, tr1) := by
    rw [layer_choose_plane_eq]
    have hsplit := range_split
      (hk : k < (⟨planes, [⟨crtc, [0, 1]⟩],
        [⟨0, L1props, none⟩, ⟨0, L2props, none⟩]⟩ : Display).planes.length)
    rw [hsplit]
    exact htr1
  -- second layer: plane k is now paired and skipped; every other plane
  -- is rejected
  have hall2 : ∀ q ∈ List.range
      (pairPlaneLayer (⟨planes, [⟨crtc, [0, 1]⟩],
      [⟨0, L1props, none⟩, ⟨0, L2props, none⟩]⟩ : Display) k 0).planes.length,
      planeLayerAt (pairPlaneLayer (⟨planes, [⟨crtc, [0, 1]⟩],
      [⟨0, L1props, none⟩, ⟨0, L2props, none⟩]⟩ : Display) k 0) q = none →
      ∃ rq, plane_apply (pairPlaneLayer (⟨planes, [⟨crtc, [0, 1]⟩],
      [⟨0, L1props, none⟩, ⟨0, L2props, none⟩]⟩ : Display) k 0).outputs
          ((pairPlaneLayer (⟨planes, [⟨crtc, [0, 1]⟩],
      [⟨0, L1props, none⟩, ⟨0, L2props, none⟩]⟩ : Display) k 0).planes.getD q default)
          (some ⟨0, L2props, none⟩)
          (r1 ++ enable_writes [⟨crtc, [0, 1]⟩] (planes.getD k default)
            ⟨0, L1props, none⟩) = some (true, rq) ∧
        drv rq ≠ 0 ∧ (-(drv rq) = EINVAL ∨ -(drv rq) = ERANGE) := by
    intro q hq hunp2
    have hqlen : q < planes.length := by
      have hx := List.mem_range.mp hq
      rwa [pair_planes_length] at hx
    have hne : q ≠ k := by
      intro hx
      subst hx
      rw [planeLayerAt_pair_self (⟨planes, [⟨crtc, [0, 1]⟩],
      [⟨0, L1props, none⟩, ⟨0, L2props, none⟩]⟩ : Display) q 0 hqlen] at hunp2
      exact Option.noConfusion hunp2
    have hqp : (pairPlaneLayer (⟨planes, [⟨crtc, [0, 1]⟩],
      [⟨0, L1props, none⟩, ⟨0, L2props, none⟩]⟩ : Display) k 0).planes.getD q default = planes.getD q default :=
      getD_set_ne _ _ (fun hx => hne hx.symm)
    rw [hqp]
    have hCRq := forall_mem_getD hCR hqlen
    have hnamesq : ∀ lp ∈ L2props,
        (plane_get_property (planes.getD q default) lp.name).isSome :=
      fun lp hlp => forall_mem_getD hnames hqlen lp
        (List.mem_append.mpr (Or.inr hlp))
    have hdr := hrej q (r1 ++ enable_writes [⟨crtc, [0, 1]⟩]
      (planes.getD k default) ⟨0, L1props, none⟩) L2props hqlen hne (Or.inr rfl)
    refine ⟨_, plane_apply_enable [⟨crtc, [0, 1]⟩] (planes.getD q default)
      ⟨0, L2props, none⟩ _ hCRq hnamesq, ?_, ?_⟩
    · rw [hdr]
      norm_num [EINVAL]
    · refine Or.inl ?_
      rw [hdr]
      norm_num [EINVAL]
  obtain ⟨tr2, htr2⟩ := layer_try_all_fail drv
    (pairPlaneLayer (⟨planes, [⟨crtc, [0, 1]⟩],
      [⟨0, L1props, none⟩, ⟨0, L2props, none⟩]⟩ : Display) k 0) 1 ⟨0, L2props, none⟩
    (List.range (pairPlaneLayer (⟨planes, [⟨crtc, [0, 1]⟩],
      [⟨0, L1props, none⟩, ⟨0, L2props, none⟩]⟩ : Display) k 0).planes.length)
    (r1 ++ enable_writes [⟨crtc, [0, 1]⟩] (planes.getD k default)
      ⟨0, L1props, none⟩)
    (r1 ++ enable_writes [⟨crtc, [0, 1]⟩] (planes.getD k default)
      ⟨0, L1props, none⟩).length rfl hall2
  have hlc2 : layer_choose_plane drv (pairPlaneLayer (⟨planes, [⟨crtc, [0, 1]⟩],
      [⟨0, L1props, none⟩, ⟨0, L2props, none⟩]⟩ : Display) k 0) 1
      (r1 ++ enable_writes [⟨crtc, [0, 1]⟩] (planes.getD k default)
        ⟨0, L1props, none⟩) =
      some (true, pairPlaneLayer (⟨planes, [⟨crtc, [0, 1]⟩],
      [⟨0, L1props, none⟩, ⟨0, L2props, none⟩]⟩ : Display) k 0,
        r1 ++ enable_writes [⟨crtc, [0, 1]⟩] (planes.getD k default)
          ⟨0, L1props, none⟩, tr2) := by
    rw [layer_choose_plane_eq]
    exact htr2
  refine ⟨pairPlaneLayer (⟨planes, [⟨crtc, [0, 1]⟩],
      [⟨0, L1props, none⟩, ⟨0, L2props, none⟩]⟩ : Display) k 0,
    r1 ++ enable_writes [⟨crtc, [0, 1]⟩] (planes.getD k default)
      ⟨0, L1props, none⟩,
    (tr1 ++ (tr2 ++ [])) ++ [], ?_, ?_, ?_, ?_⟩
  · simp only [hwc_display_apply, hclear, hdis, match_outputs, match_layers,
      hlc1, hlc2, Option.map]
  · exact layerPlaneAt_pair_self (⟨planes, [⟨crtc, [0, 1]⟩],
      [⟨0, L1props, none⟩, ⟨0, L2props, none⟩]⟩ : Display) k 0 (Nat.succ_pos 1)
  · rw [layerPlaneAt_pair_ne (⟨planes, [⟨crtc, [0, 1]⟩],
      [⟨0, L1props, none⟩, ⟨0, L2props, none⟩]⟩ : Display) k 0 (by decide : (1 : Nat) ≠ 0)]
    rfl
  · exact planeLayerAt_pair_self (⟨planes, [⟨crtc, [0, 1]⟩],
      [⟨0, L1props, none⟩, ⟨0, L2props, none⟩]⟩ : Display) k 0 hk

/-- Witness for C5: two concrete planes (ids 10, 11), driver accepting
only plane 11's enable groups; the first layer gets plane 11 (index 1),
the second stays unpaired. -/
theorem c5_witness :
    (1 < ([exPlane0, exPlane1] : List Plane).length) ∧
    (∀ p ∈ [exPlane0, exPlane1], p.layer = none) ∧
    (∀ p ∈ [exPlane0, exPlane1], (plane_get_property p "FB_ID").isSome) ∧
    (∀ p ∈ [exPlane0, exPlane1], (plane_get_property p "CRTC_ID").isSome) ∧
    (∀ p ∈ [exPlane0, exPlane1],
      ∀ lp ∈ ([⟨"FB_ID", 100⟩] : List LayerProp) ++ [⟨"FB_ID", 101⟩],
      (plane_get_property p lp.name).isSome) ∧
    (∀ (r : List AtomicEntry) (props : List LayerProp),
      props = [⟨"FB_ID", 100⟩] ∨ props = [⟨"FB_ID", 101⟩] →
      drvLastObj11 (r ++ enable_writes [⟨5, [0, 1]⟩]
        (([exPlane0, exPlane1] : List Plane).getD 1 default)
        ⟨0, props, none⟩) = 0) ∧
    (∀ (q : Nat) (r : List AtomicEntry) (props : List LayerProp),
      q < ([exPlane0, exPlane1] : List Plane).length → q ≠ 1 →
      (props = [⟨"FB_ID", 100⟩] ∨ props = [⟨"FB_ID", 101⟩]) →
      drvLastObj11 (r ++ enable_writes [⟨5, [0, 1]⟩]
        (([exPlane0, exPlane1] : List Plane).getD q default)
        ⟨0, props, none⟩) = -EINVAL) ∧
    (∃ d' req' tr,
      hwc_display_apply
        (⟨[exPlane0, exPlane1], [⟨5, [0, 1]⟩],
          [⟨0, [⟨"FB_ID", 100⟩], none⟩, ⟨0, [⟨"FB_ID", 101⟩], none⟩]⟩ :
            Display) [] drvLastObj11 = some (true, d', req', tr) ∧
      layerPlaneAt d' 0 = some 1 ∧ layerPlaneAt d' 1 = none ∧
      planeLayerAt d' 1 = some 0) := by
  have hacc : ∀ (r : List AtomicEntry) (props : List LayerProp),
      props = [⟨"FB_ID", 100⟩] ∨ props = [⟨"FB_ID", 101⟩] →
      drvLastObj11 (r ++ enable_writes [⟨5, [0, 1]⟩]
        (([exPlane0, exPlane1] : List Plane).getD 1 default)
        ⟨0, props, none⟩) = 0 := by
    intro r props hp
    rcases hp with rfl | rfl
    · exact drvLastObj11_append_pair r ⟨11, 2, 5⟩ ⟨11, 1, 100⟩ rfl
    · exact drvLastObj11_append_pair r ⟨11, 2, 5⟩ ⟨11, 1, 101⟩ rfl
  have hrej : ∀ (q : Nat) (r : List AtomicEntry) (props : List LayerProp),
      q < ([exPlane0, exPlane1] : List Plane).length → q ≠ 1 →
      (props = [⟨"FB_ID", 100⟩] ∨ props = [⟨"FB_ID", 101⟩]) →
      drvLastObj11 (r ++ enable_writes [⟨5, [0, 1]⟩]
        (([exPlane0, exPlane1] : List Plane).getD q default)
        ⟨0, props, none⟩) = -EINVAL := by
    intro q r props hq hne hp
    have hq2 : q < 2 := hq
    interval_cases q
    · rcases hp with rfl | rfl
      · exact drvLastObj11_append_pair_ne r ⟨10, 2, 5⟩ ⟨10, 1, 100⟩ (by decide)
      · exact drvLastObj11_append_pair_ne r ⟨10, 2, 5⟩ ⟨10, 1, 101⟩ (by decide)
    · exact absurd rfl hne
  exact ⟨by decide, by decide, by decide, by decide, by decide, hacc, hrej,
    c5_priority_order [exPlane0, exPlane1] 1 5 [⟨"FB_ID", 100⟩]
      [⟨"FB_ID", 101⟩] [] drvLastObj11 (by decide) (by decide) (by decide)
      (by decide) (by decide) hacc hrej⟩
